import Mathlib

/-!
Verification of the CPU-scheduling simulation engine of the OS simulator
(backend/schedulers: base_scheduler.py, fcfs.py, sjf.py, priority.py,
round_robin.py, and the route layer scheduler_routes.py).

The Python code is embedded shallowly: every mutable object becomes a value,
in-place mutation becomes explicit state passing, Python ints become `Int`,
Python floats (used only in `calculate_metrics`) are modelled as exact
rationals, and the four `run_simulation` while-loops (textually identical up
to the `schedule` call, the Round-Robin quantum bookkeeping and log strings)
become one fuelled loop parameterised by the policy.
-/

/-- Stable insertion sort with a boolean "less or equal" comparator.
An element is inserted in front of the first element it is `le`-related to,
so elements with equal keys keep their relative order - the behaviour of
the stable `list.sort(key=...)` used by the Python schedulers. -/
def orderedInsert (le : α → α → Bool) (x : α) : List α → List α
  | [] => [x]
  | y :: ys => if le x y then x :: y :: ys else y :: orderedInsert le x ys

/-- Stable sort via repeated `orderedInsert`; models `list.sort(key=...)`. -/
def sortByKey (le : α → α → Bool) : List α → List α
  | [] => []
  | x :: xs => orderedInsert le x (sortByKey le xs)

/-- Process lifecycle states (`models.ProcessState`). -/
inductive ProcState
  | NEW
  | READY
  | RUNNING
  | WAITING
  | TERMINATED
deriving DecidableEq

/-- A process and its mutable runtime fields (`models.Process`). -/
structure Process where
  pid : Int
  arrival_time : Int
  burst_time : Int
  priority : Int
  memory_required : Int
  state : ProcState
  remaining_time : Int
  wait_time : Int
  turnaround_time : Int
  response_time : Option Int
  start_time : Option Int
  completion_time : Option Int
deriving DecidableEq

/-- Constructor defaults of `models.Process.__init__`: runtime fields are
zeroed, the state is NEW and `remaining_time` is initialised to
`burst_time`. -/
def mkProcess (pid arrival_time burst_time priority : Int) : Process :=
  { pid := pid
    arrival_time := arrival_time
    burst_time := burst_time
    priority := priority
    memory_required := 0
    state := ProcState.NEW
    remaining_time := burst_time
    wait_time := 0
    turnaround_time := 0
    response_time := none
    start_time := none
    completion_time := none }

/-- One recorded state transition (`models.ProcessStateChange`). -/
structure ProcessStateChange where
  time : Int
  pid : Int
  from_state : ProcState
  to_state : ProcState
  reason : String
deriving DecidableEq

/-- One timeline event (`models.TimelineEvent`). -/
structure TimelineEvent where
  time : Int
  pid : Option Int
  event_type : String
  description : String
deriving DecidableEq

/-- One context switch record (`models.ContextSwitchEvent`). -/
structure ContextSwitchEvent where
  time : Int
  from_pid : Option Int
  to_pid : Int
  reason : String
  steps : List String
deriving DecidableEq

/-- One Gantt chart entry; `base_scheduler.execute_process` appends the
dictionary with keys pid, start, end, duration. (`end` is a Lean keyword,
hence the field name `end_`.) -/
structure GanttEntry where
  pid : Int
  start : Int
  end_ : Int
  duration : Int
deriving DecidableEq

/-- Aggregate metrics (`models.SchedulerMetrics`); the Python float fields
are modelled as exact rationals. -/
structure SchedulerMetrics where
  average_waiting_time : ℚ
  average_turnaround_time : ℚ
  average_response_time : ℚ
  cpu_utilization : ℚ
  throughput : ℚ
  total_context_switches : Nat
deriving DecidableEq

/-- The state of one simulation run: the `BaseScheduler` attributes plus the
locals of `run_simulation` (`pending` is the unread suffix
`processes[process_index:]` of the sorted input list, `idle_time` the idle
accumulator; `time_quantum` and `current_quantum_remaining` exist only on
`RoundRobinScheduler` and are never read by the other policies). -/
structure SimState where
  current_time : Int
  ready_queue : List Process
  waiting_queue : List Process
  completed_processes : List Process
  running_process : Option Process
  timeline : List TimelineEvent
  state_changes : List ProcessStateChange
  context_switches : List ContextSwitchEvent
  gantt_chart : List GanttEntry
  explanations : List String
  time_quantum : Int
  current_quantum_remaining : Int
  pending : List Process
  idle_time : Int
deriving DecidableEq

/-- `BaseScheduler._record_state_change`. -/
def record_state_change (st : SimState) (pid : Int) (from_state to_state : ProcState)
    (reason : String) : SimState :=
  { st with state_changes := st.state_changes ++
      [{ time := st.current_time, pid := pid, from_state := from_state,
         to_state := to_state, reason := reason }] }

/-- `BaseScheduler._add_timeline_event` (all call sites pass no pid). -/
def add_timeline_event (st : SimState) (event_type description : String) : SimState :=
  { st with timeline := st.timeline ++
      [{ time := st.current_time, pid := none, event_type := event_type,
         description := description }] }

/-- `BaseScheduler._add_explanation`: prefixes the simulated time stamp. -/
def add_explanation (st : SimState) (text : String) : SimState :=
  { st with explanations := st.explanations ++
      ["[t=" ++ toString st.current_time ++ "] " ++ text] }

/-- `BaseScheduler._change_state`: mutates the given process object and
records the transition; the updated object is returned alongside the state
because Python call sites keep using the mutated alias. -/
def change_state (st : SimState) (p : Process) (new_state : ProcState)
    (reason : String) : SimState × Process :=
  let p' := { p with state := new_state }
  (record_state_change st p.pid p.state new_state reason, p')

/-- `BaseScheduler.add_process`: admit a process to the ready queue. -/
def add_process (st : SimState) (p : Process) : SimState :=
  let p' := { p with state := ProcState.READY }
  let st := { st with ready_queue := st.ready_queue ++ [p'] }
  let st := record_state_change st p'.pid ProcState.NEW ProcState.READY
      ("Process P" ++ toString p'.pid ++ " arrived and added to ready queue")
  add_timeline_event st "process_arrival"
      ("Process P" ++ toString p'.pid ++ " arrived (burst=" ++
        toString p'.burst_time ++ ")")

/-- The six fixed narrative steps logged by `BaseScheduler.context_switch`. -/
def contextSwitchSteps : List String :=
  [ "Save state of current process (registers, program counter)"
  , "Update process control block (PCB)"
  , "Select next process from ready queue"
  , "Load state of new process from its PCB"
  , "Update CPU registers and program counter"
  , "Resume execution of new process" ]

/-- `BaseScheduler.context_switch`: append a context-switch record and a
timeline event. -/
def context_switch (st : SimState) (from_process : Option Process)
    (to_process : Process) (reason : String) : SimState :=
  let st := { st with context_switches := st.context_switches ++
      [{ time := st.current_time
         from_pid := from_process.map Process.pid
         to_pid := to_process.pid
         reason := reason
         steps := contextSwitchSteps }] }
  add_timeline_event st "context_switch"
      ("Context switch: P" ++
        (match from_process with
          | some p => toString p.pid
          | none => "None") ++
        " → P" ++ toString to_process.pid ++ " (" ++ reason ++ ")")

/-- `BaseScheduler._complete_process`: set the terminal timing fields, move
the process to the completed collection (the running alias keeps pointing at
the mutated object) and log an explanation. -/
def complete_process (st : SimState) (p : Process) : SimState :=
  let p := { p with completion_time := some st.current_time }
  let p := { p with turnaround_time := st.current_time - p.arrival_time }
  let p := { p with wait_time := p.turnaround_time - p.burst_time }
  let (st, p) := change_state st p ProcState.TERMINATED "Process completed execution"
  let st := { st with completed_processes := st.completed_processes ++ [p]
                      running_process := some p }
  add_explanation st
    ("Process P" ++ toString p.pid ++ " completed. Turnaround time: " ++
      toString p.turnaround_time ++ ", Waiting time: " ++ toString p.wait_time)

/-- `BaseScheduler.execute_process` applied, as at every call site, to the
current `running_process`: on first execution transition to RUNNING and set
`start_time`/`response_time`; consume `min(duration, remaining_time)` time
units; append one Gantt entry; advance the clock; complete the process if
`remaining_time` reached zero. -/
def execute_process (st : SimState) (duration : Int) : SimState :=
  match st.running_process with
  | none => st
  | some p =>
    let (st, p) :=
      if p.state ≠ ProcState.RUNNING then
        let (st, p) := change_state st p ProcState.RUNNING "Selected by scheduler"
        let p :=
          if p.start_time = none then
            { p with start_time := some st.current_time
                     response_time := some (st.current_time - p.arrival_time) }
          else p
        (st, p)
      else (st, p)
    let actual_duration := min duration p.remaining_time
    let p := { p with remaining_time := p.remaining_time - actual_duration }
    let st := { st with
        gantt_chart := st.gantt_chart ++
          [({ pid := p.pid, start := st.current_time,
              end_ := st.current_time + actual_duration,
              duration := actual_duration } : GanttEntry)]
        running_process := some p }
    let st := { st with current_time := st.current_time + actual_duration }
    if p.remaining_time = 0 then complete_process st p else st

/-- The four scheduling policies (`models.SchedulingAlgorithm` together with
the `preemptive` constructor flag of `SJFScheduler` / `PriorityScheduler`). -/
inductive Policy
  | fcfs
  | sjf (preemptive : Bool)
  | priority (preemptive : Bool)
  | round_robin
deriving DecidableEq

/-- Ordering key `(arrival_time, pid)` used by every `run_simulation` to sort
the input list. -/
def arrivalPidLe (a b : Process) : Bool :=
  decide (a.arrival_time < b.arrival_time ∨
    (a.arrival_time = b.arrival_time ∧ a.pid ≤ b.pid))

/-- Ordering key `(remaining_time, pid)` of `SJFScheduler.schedule`. -/
def sjfKeyLe (a b : Process) : Bool :=
  decide (a.remaining_time < b.remaining_time ∨
    (a.remaining_time = b.remaining_time ∧ a.pid ≤ b.pid))

/-- Ordering key `(priority, arrival_time, pid)` of
`PriorityScheduler.schedule`. -/
def priorityKeyLe (a b : Process) : Bool :=
  decide (a.priority < b.priority ∨
    (a.priority = b.priority ∧
      (a.arrival_time < b.arrival_time ∨
        (a.arrival_time = b.arrival_time ∧ a.pid ≤ b.pid))))

/-- The arrival loop shared by every `schedule` method: `add_process` each
new arrival and log the per-policy explanation text. An empty arrival list
does nothing, like the falsy `if new_arrivals:` guard. -/
def admitAll (st : SimState) (arrivals : List Process)
    (explain : Process → String) : SimState :=
  arrivals.foldl (fun s p => add_explanation (add_process s p) (explain p)) st

/-- The per-arrival explanation text of `FCFSScheduler.schedule`. -/
def fcfsArrivalText (p : Process) : String :=
  "Process P" ++ toString p.pid ++ " arrived with burst time " ++
    toString p.burst_time ++ ". Added to end of ready queue."

/-- The dispatch explanation text of `FCFSScheduler.schedule`. -/
def fcfsSelectedText (next : Process) : String :=
  "FCFS selected P" ++ toString next.pid ++
    " (first in queue, arrival time: " ++ toString next.arrival_time ++ ")"

/-- The selection part of `FCFSScheduler.schedule`: when no process is
running, pop the queue head, make it running, and log a context switch if
prior work exists. -/
def fcfsCore (st : SimState) : SimState :=
  match st.running_process, st.ready_queue with
  | none, next :: rest =>
    let st := { st with ready_queue := rest, running_process := some next }
    let st := add_explanation st (fcfsSelectedText next)
    if 0 < st.completed_processes.length || 0 < st.gantt_chart.length then
      context_switch st none next "FCFS scheduling"
    else st
  | _, _ => st

/-- `FCFSScheduler.schedule`: admit the arrival batch, then select. -/
def fcfsSchedule (st : SimState) (arrivals : List Process) : SimState :=
  fcfsCore (admitAll st arrivals fcfsArrivalText)

/-- Display name used in the SJF dispatch explanation
(`SJFScheduler.algorithm_name`). -/
def sjfName (preemptive : Bool) : String :=
  if preemptive then "SRTF (Shortest Remaining Time First)"
  else "SJF (Shortest Job First)"

/-- The dispatch explanation text of `SJFScheduler.schedule`. -/
def sjfSelectedText (preemptive : Bool) (next : Process) : String :=
  sjfName preemptive ++ " selected P" ++ toString next.pid ++
    " (shortest " ++
    (if preemptive then "remaining time" else "burst time") ++
    ": " ++ toString next.remaining_time ++ ")"

/-- The preemption explanation text of `SJFScheduler.schedule`. -/
def srtfPreemptText (running shortest : Process) : String :=
  "SRTF: Preempting P" ++ toString running.pid ++ " (remaining: " ++
    toString running.remaining_time ++ ") for P" ++
    toString shortest.pid ++ " (remaining: " ++
    toString shortest.remaining_time ++ ")"

/-- Tail of `SJFScheduler.schedule`: dispatch the head of the (already
sorted) ready queue when the CPU is free. -/
def sjfDispatch (preemptive : Bool) (st : SimState) : SimState :=
  match st.running_process, st.ready_queue with
  | none, next :: rest =>
    let st := { st with ready_queue := rest, running_process := some next }
    let st := add_explanation st (sjfSelectedText preemptive next)
    if 0 < st.completed_processes.length || 0 < st.gantt_chart.length then
      context_switch st none next "SJF scheduling"
    else st
  | _, _ => st

/-- The per-arrival explanation text of `SJFScheduler.schedule`. -/
def sjfArrivalText (p : Process) : String :=
  "Process P" ++ toString p.pid ++ " arrived with burst time " ++
    toString p.burst_time

/-- The `if self.ready_queue: self.ready_queue.sort(...)` step of
`SJFScheduler.schedule`. -/
def sortReadySJF (st : SimState) : SimState :=
  if st.ready_queue.isEmpty then st
  else { st with ready_queue := sortByKey sjfKeyLe st.ready_queue }

/-- The preempt-or-dispatch part of `SJFScheduler.schedule`, acting on the
already admitted and sorted state: in SRTF mode preempt when the queue head
has strictly smaller remaining time than the running process, otherwise
dispatch the queue head if the CPU is free. -/
def sjfCore (preemptive : Bool) (st : SimState) : SimState :=
  match preemptive, st.running_process, st.ready_queue with
  | true, some running, shortest :: _ =>
    if shortest.remaining_time < running.remaining_time then
      let st := add_explanation st (srtfPreemptText running shortest)
      let (st, running') :=
        change_state st running ProcState.READY "Preempted by shorter job"
      let st :=
        { st with ready_queue := sortByKey sjfKeyLe (st.ready_queue ++ [running']) }
      match st.ready_queue with
      | [] => st  -- unreachable: the sorted queue contains the preempted process
      | next :: rest =>
        let st := { st with ready_queue := rest }
        let st := context_switch st (some running') next "Preemption (shorter job arrived)"
        { st with running_process := some next }
    else sjfDispatch preemptive st
  | _, _, _ => sjfDispatch preemptive st

/-- `SJFScheduler.schedule`: admit the arrival batch, sort the ready queue
by `(remaining_time, pid)`, then preempt or dispatch. -/
def sjfSchedule (preemptive : Bool) (st : SimState) (arrivals : List Process) :
    SimState :=
  sjfCore preemptive (sortReadySJF (admitAll st arrivals sjfArrivalText))

/-- Display name of `PriorityScheduler.algorithm_name`. -/
def priorityName (preemptive : Bool) : String :=
  if preemptive then "Preemptive Priority Scheduling"
  else "Non-Preemptive Priority Scheduling"

/-- The dispatch explanation text of `PriorityScheduler.schedule`. -/
def prioritySelectedText (next : Process) : String :=
  "Priority scheduler selected P" ++ toString next.pid ++
    " (highest priority in queue: " ++ toString next.priority ++ ")"

/-- The preemption explanation text of `PriorityScheduler.schedule`. -/
def priorityPreemptText (running highest : Process) : String :=
  "Priority: Preempting P" ++ toString running.pid ++ " (priority " ++
    toString running.priority ++ ") for P" ++ toString highest.pid ++
    " (priority " ++ toString highest.priority ++ ")"

/-- Tail of `PriorityScheduler.schedule`: dispatch the head of the sorted
ready queue when the CPU is free. -/
def priorityDispatch (st : SimState) : SimState :=
  match st.running_process, st.ready_queue with
  | none, next :: rest =>
    let st := { st with ready_queue := rest, running_process := some next }
    let st := add_explanation st (prioritySelectedText next)
    if 0 < st.completed_processes.length || 0 < st.gantt_chart.length then
      context_switch st none next "Priority scheduling"
    else st
  | _, _ => st

/-- The per-arrival explanation text of `PriorityScheduler.schedule`. -/
def priorityArrivalText (p : Process) : String :=
  "Process P" ++ toString p.pid ++ " arrived with priority " ++
    toString p.priority ++ " (burst time: " ++ toString p.burst_time ++ ")"

/-- The `if self.ready_queue: self.ready_queue.sort(...)` step of
`PriorityScheduler.schedule`. -/
def sortReadyPriority (st : SimState) : SimState :=
  if st.ready_queue.isEmpty then st
  else { st with ready_queue := sortByKey priorityKeyLe st.ready_queue }

/-- The preempt-or-dispatch part of `PriorityScheduler.schedule`, acting on
the already admitted and sorted state. -/
def priorityCore (preemptive : Bool) (st : SimState) : SimState :=
  match preemptive, st.running_process, st.ready_queue with
  | true, some running, highest :: _ =>
    if highest.priority < running.priority then
      let st := add_explanation st (priorityPreemptText running highest)
      let (st, running') :=
        change_state st running ProcState.READY "Preempted by higher priority process"
      let st :=
        { st with ready_queue := sortByKey priorityKeyLe (st.ready_queue ++ [running']) }
      match st.ready_queue with
      | [] => st  -- unreachable: the sorted queue contains the preempted process
      | next :: rest =>
        let st := { st with ready_queue := rest }
        let st := context_switch st (some running') next "Preemption (higher priority)"
        { st with running_process := some next }
    else priorityDispatch st
  | _, _, _ => priorityDispatch st

/-- `PriorityScheduler.schedule`: admit the arrival batch, sort the ready
queue by `(priority, arrival_time, pid)`, then preempt or dispatch. -/
def prioritySchedule (preemptive : Bool) (st : SimState)
    (arrivals : List Process) : SimState :=
  priorityCore preemptive (sortReadyPriority (admitAll st arrivals priorityArrivalText))

/-- The per-arrival explanation text of `RoundRobinScheduler.schedule`. -/
def rrArrivalText (p : Process) : String :=
  "Process P" ++ toString p.pid ++ " arrived (burst: " ++
    toString p.burst_time ++ "), added to ready queue"

/-- The quantum-expiry explanation text of `RoundRobinScheduler.schedule`. -/
def rrExpiredText (running : Process) : String :=
  "Time quantum expired for P" ++ toString running.pid ++
    ". Remaining time: " ++ toString running.remaining_time ++
    ". Moving to end of queue."

/-- The dispatch explanation text of `RoundRobinScheduler.schedule`. -/
def rrSelectedText (next : Process) (tq : Int) : String :=
  "Round Robin selected P" ++ toString next.pid ++
    " from ready queue. Time quantum: " ++ toString tq

/-- The quantum-expiry part of `RoundRobinScheduler.schedule`: an unfinished
running process whose quantum is exhausted goes back to the TAIL of the
ready queue. -/
def rrExpiry (st : SimState) : SimState :=
  match st.running_process with
  | some running =>
    if st.current_quantum_remaining ≤ 0 then
      if 0 < running.remaining_time then
        let st := add_explanation st (rrExpiredText running)
        let (st, running') :=
          change_state st running ProcState.READY "Time quantum expired"
        { st with ready_queue := st.ready_queue ++ [running']
                  running_process := none }
      else st
    else st
  | none => st

/-- The dispatch part of `RoundRobinScheduler.schedule`: pop the queue head
and grant it a full fresh quantum. -/
def rrDispatch (st : SimState) : SimState :=
  match st.running_process, st.ready_queue with
  | none, next :: rest =>
    let st := { st with ready_queue := rest, running_process := some next
                        current_quantum_remaining := st.time_quantum }
    let st := add_explanation st (rrSelectedText next st.time_quantum)
    if 0 < st.completed_processes.length || 0 < st.gantt_chart.length then
      context_switch st none next "Round Robin scheduling"
    else st
  | _, _ => st

/-- `RoundRobinScheduler.schedule`: admit the arrival batch, handle quantum
expiry, then dispatch. -/
def rrSchedule (st : SimState) (arrivals : List Process) : SimState :=
  rrDispatch (rrExpiry (admitAll st arrivals rrArrivalText))

/-- Dispatch to the policy-specific `schedule` method. -/
def schedule : Policy → SimState → List Process → SimState
  | Policy.fcfs, st, arrivals => fcfsSchedule st arrivals
  | Policy.sjf pre, st, arrivals => sjfSchedule pre st arrivals
  | Policy.priority pre, st, arrivals => prioritySchedule pre st arrivals
  | Policy.round_robin, st, arrivals => rrSchedule st arrivals

/-- Per-policy idle explanation text of the `run_simulation` idle branch. -/
def idleExplanation : Policy → String
  | Policy.fcfs => "CPU idle, waiting for next process arrival"
  | _ => "CPU idle, waiting for next process"

/-- The part of one `run_simulation` loop iteration that follows the
`schedule` call: either execute the running process for one time unit
(clearing it on completion; Round-Robin also decrements and resets its
quantum) or fast-forward the clock to the next arrival. -/
def tickRest (pol : Policy) (st : SimState) : SimState :=
  match st.running_process with
  | some _ =>
    let st := execute_process st 1
    let st :=
      match pol with
      | Policy.round_robin =>
        { st with current_quantum_remaining := st.current_quantum_remaining - 1 }
      | _ => st
    match st.running_process with
    | some p =>
      if p.remaining_time = 0 then
        match pol with
        | Policy.round_robin =>
          { st with running_process := none, current_quantum_remaining := 0 }
        | _ => { st with running_process := none }
      else st
    | none => st
  | none =>
    match st.pending with
    | [] => st
    | nxt :: _ =>
      let idle_duration := nxt.arrival_time - st.current_time
      if 0 < idle_duration then
        let st := add_timeline_event st "cpu_idle"
          ("CPU idle for " ++ toString idle_duration ++ " time units")
        let st := add_explanation st (idleExplanation pol)
        { st with idle_time := st.idle_time + idle_duration
                  current_time := nxt.arrival_time }
      else st

/-- One iteration of the `run_simulation` while-loop, common to all four
policies: collect the batch of processes that have arrived by the current
time, hand it to `schedule`, then run `tickRest`. -/
def tick (pol : Policy) (st : SimState) : SimState :=
  let arrivals := st.pending.takeWhile (fun p => decide (p.arrival_time ≤ st.current_time))
  let st := { st with
    pending := st.pending.dropWhile (fun p => decide (p.arrival_time ≤ st.current_time)) }
  tickRest pol (schedule pol st arrivals)

/-- The guard of the `run_simulation` while-loop: unread input remains, or a
process is running, or the ready queue is non-empty. -/
def loopCond (st : SimState) : Bool :=
  !st.pending.isEmpty || st.running_process.isSome || !st.ready_queue.isEmpty

/-- The fuelled while-loop of `run_simulation`; `runLoop pol k st` is the
state after at most `k` iterations, stopping as soon as `loopCond` fails. -/
def runLoop (pol : Policy) : Nat → SimState → SimState
  | 0, st => st
  | fuel + 1, st => if loopCond st then runLoop pol fuel (tick pol st) else st

/-- The opening explanation logged by each `run_simulation` before its
loop. -/
def startingExplanation (pol : Policy) (tq : Int) (n : Nat) : String :=
  match pol with
  | Policy.fcfs => "Starting FCFS simulation with " ++ toString n ++ " processes"
  | Policy.sjf pre =>
    "Starting " ++ sjfName pre ++ " simulation with " ++ toString n ++ " processes"
  | Policy.priority pre =>
    "Starting " ++ priorityName pre ++ " with " ++ toString n ++ " processes"
  | Policy.round_robin =>
    "Starting Round Robin simulation with " ++ toString n ++
      " processes, time quantum = " ++ toString tq

/-- The state at the top of `run_simulation`: fresh `BaseScheduler.__init__`
attributes, the input list sorted by `(arrival_time, pid)`, and the opening
explanation. `time_quantum` is the `RoundRobinScheduler` constructor
argument; the other policies never read it. -/
def initState (pol : Policy) (tq : Int) (procs : List Process) : SimState :=
  let st : SimState :=
    { current_time := 0
      ready_queue := []
      waiting_queue := []
      completed_processes := []
      running_process := none
      timeline := []
      state_changes := []
      context_switches := []
      gantt_chart := []
      explanations := []
      time_quantum := tq
      current_quantum_remaining := 0
      pending := sortByKey arrivalPidLe procs
      idle_time := 0 }
  add_explanation st (startingExplanation pol tq procs.length)

/-- The closing explanation logged by each `run_simulation` after its loop. -/
def finalExplanation (pol : Policy) (st : SimState) : SimState :=
  match pol with
  | Policy.fcfs =>
    add_explanation st ("FCFS simulation completed. Total time: " ++
      toString st.current_time ++ ", Idle time: " ++ toString st.idle_time)
  | Policy.sjf pre =>
    add_explanation st (sjfName pre ++ " simulation completed. Total time: " ++
      toString st.current_time)
  | Policy.priority pre =>
    add_explanation st (priorityName pre ++ " completed. Total time: " ++
      toString st.current_time)
  | Policy.round_robin =>
    add_explanation st ("Round Robin simulation completed. Total time: " ++
      toString st.current_time ++ ", Time quantum: " ++ toString st.time_quantum)

/-- Fuel that dominates the loop-iteration count for any input (proved
sufficient for well-formed input in the termination development below). -/
def simFuel (procs : List Process) : Nat :=
  2 * (procs.map (fun p => p.remaining_time.toNat)).sum + 3 * procs.length + 2

/-- `run_simulation` of any of the four schedulers: sort, log the opening
explanation, run the while-loop to exhaustion, log the closing
explanation. -/
def runSimulation (pol : Policy) (tq : Int) (procs : List Process) : SimState :=
  finalExplanation pol (runLoop pol (simFuel procs) (initState pol tq procs))

/-- Banker-style rounding of Python `round(x)`: halves go to the even
neighbour, every other value to the nearest integer. -/
def pyRound (q : ℚ) : ℤ :=
  if q - ⌊q⌋ = 1 / 2 then (if Even ⌊q⌋ then ⌊q⌋ else ⌊q⌋ + 1) else round q

/-- Python `round(x, ndigits)` on the exact-rational model of floats. -/
def pyRoundTo (ndigits : ℕ) (q : ℚ) : ℚ :=
  (pyRound (q * 10 ^ ndigits) : ℚ) / 10 ^ ndigits

/-- The record returned by `calculate_metrics` when no process completed. -/
def zeroMetrics : SchedulerMetrics :=
  { average_waiting_time := 0
    average_turnaround_time := 0
    average_response_time := 0
    cpu_utilization := 0
    throughput := 0
    total_context_switches := 0 }

/-- `BaseScheduler.calculate_metrics`: averages over completed processes,
CPU utilisation and throughput guarded against `current_time == 0`, context
switch count; all-zero record when nothing completed. -/
def calculate_metrics (st : SimState) : SchedulerMetrics :=
  if st.completed_processes.isEmpty then zeroMetrics
  else
    let n : ℚ := st.completed_processes.length
    let avg_wait :=
      ((st.completed_processes.map (fun p => (p.wait_time : ℚ))).sum) / n
    let avg_turnaround :=
      ((st.completed_processes.map (fun p => (p.turnaround_time : ℚ))).sum) / n
    let avg_response :=
      (((st.completed_processes.filterMap (fun p => p.response_time)).map
        (fun r => (r : ℚ))).sum) / n
    let total_burst : ℚ :=
      ((st.completed_processes.map (fun p => (p.burst_time : ℚ))).sum)
    let cpu_util :=
      if 0 < st.current_time then total_burst / (st.current_time : ℚ) * 100 else 0
    let throughput :=
      if 0 < st.current_time then n / (st.current_time : ℚ) else 0
    { average_waiting_time := pyRoundTo 2 avg_wait
      average_turnaround_time := pyRoundTo 2 avg_turnaround
      average_response_time := pyRoundTo 2 avg_response
      cpu_utilization := pyRoundTo 2 cpu_util
      throughput := pyRoundTo 4 throughput
      total_context_switches := st.context_switches.length }

/-- `copy.deepcopy` of a process: in the value embedding a deep copy of an
object is the value itself; what matters is which value the simulation
mutates. -/
def deepcopyProcess (p : Process) : Process := p

/-- The value held by the argument list object of `run_simulation` after the
call: the in-place sort reorders it, and every slot holds the final mutated
version of its process object (looked up by pid among the collections the
run left behind). -/
def mutatedArgument (st : SimState) (procs : List Process) : List Process :=
  (sortByKey arrivalPidLe procs).map (fun p =>
    ((st.completed_processes ++ st.ready_queue ++ st.running_process.toList ++
        st.pending).find? (fun q => q.pid == p.pid)).getD p)

/-- `run_simulation` with its in-place mutation made explicit: alongside the
final scheduler state it returns the value of the argument list after the
call. -/
def runSimulationMutated (pol : Policy) (tq : Int) (procs : List Process) :
    SimState × List Process :=
  let st := runSimulation pol tq procs
  (st, mutatedArgument st procs)

/-- `scheduler_routes.run_simulation` (the `/run` route): deep-copy the
caller processes, run the simulation on the copies, answer from the final
scheduler state. The second component is the caller process list after the
call, threaded explicitly to express what the route does and does not
mutate. -/
def routeRunSimulation (pol : Policy) (tq : Int)
    (caller_processes : List Process) : SimState × List Process :=
  let procs := caller_processes.map deepcopyProcess
  let result := runSimulationMutated pol tq procs
  (result.1, caller_processes)

/-!  Auxiliary notions used by the verification development. -/

/-- The process value produced by `add_process` before queueing. -/
def readyify (p : Process) : Process := { p with state := ProcState.READY }

/-- The state-change record appended by `add_process` at time `t`. -/
def arrivalRecord (t : Int) (p : Process) : ProcessStateChange :=
  { time := t
    pid := p.pid
    from_state := ProcState.NEW
    to_state := ProcState.READY
    reason := "Process P" ++ toString p.pid ++ " arrived and added to ready queue" }

/-- All processes the run has not finished with: unread input, ready queue,
and the running process. -/
def activeList (st : SimState) : List Process :=
  st.pending ++ st.ready_queue ++ st.running_process.toList

/-- Every process object the run knows about. -/
def allList (st : SimState) : List Process :=
  activeList st ++ st.completed_processes

/-- The fields of a process that scheduling moves around but never changes
within one `schedule` call: pid, remaining time, burst time, arrival time. -/
def coreOf (p : Process) : Int × Int × Int × Int :=
  (p.pid, p.remaining_time, p.burst_time, p.arrival_time)

/-- Total Gantt time booked to a pid in a list of entries. -/
def ganttSumL (l : List GanttEntry) (pid : Int) : Int :=
  ((l.filter (fun e => e.pid == pid)).map GanttEntry.duration).sum

/-- Total Gantt time booked to a pid. -/
def ganttSum (st : SimState) (pid : Int) : Int :=
  ganttSumL st.gantt_chart pid

/-- Total remaining time of the processes of a pid in a list. -/
def remSumL (l : List Process) (pid : Int) : Int :=
  ((l.filter (fun p => p.pid == pid)).map Process.remaining_time).sum

/-- `remSumL` computed on the `coreOf` projections. -/
def remSumC (l : List (Int × Int × Int × Int)) (pid : Int) : Int :=
  ((l.filter (fun c => c.1 == pid)).map (fun c => c.2.1)).sum

/-- Total burst time of the processes of a pid in a list. -/
def burstSum (l : List Process) (pid : Int) : Int :=
  ((l.filter (fun p => p.pid == pid)).map Process.burst_time).sum

/-- Well-formed simulation input: the validation enforced by the pydantic
`Process` model (`burst_time > 0`, `arrival_time >= 0`) together with the
freshness established by `Process.__init__` (state NEW, `remaining_time`
initialised to `burst_time`). -/
def WFInput (procs : List Process) : Prop :=
  ∀ p ∈ procs, 1 ≤ p.burst_time ∧ 0 ≤ p.arrival_time ∧
    p.remaining_time = p.burst_time ∧ p.state = ProcState.NEW

/-- Invariant of the simulation loop, parameterised by the per-pid total
burst time `B` of the input. -/
structure SimInv (B : Int → Int) (st : SimState) : Prop where
  waiting_nil : st.waiting_queue = []
  no_waiting : ∀ p ∈ allList st, p.state ≠ ProcState.WAITING
  pending_rem : ∀ p ∈ st.pending, 1 ≤ p.remaining_time
  ready_rem : ∀ p ∈ st.ready_queue, 1 ≤ p.remaining_time
  running_rem : ∀ p, st.running_process = some p → 1 ≤ p.remaining_time
  completed_fields : ∀ p ∈ st.completed_processes,
    p.completion_time = some (p.arrival_time + p.turnaround_time) ∧
    p.wait_time = p.turnaround_time - p.burst_time ∧
    p.remaining_time = 0 ∧ p.state = ProcState.TERMINATED ∧
    ∃ e ∈ st.gantt_chart, e.pid = p.pid ∧
      e.end_ = p.arrival_time + p.turnaround_time
  gantt_ok : ∀ e ∈ st.gantt_chart, e.duration = e.end_ - e.start ∧ e.duration = 1
  sums : ∀ pid, ganttSum st pid + remSumL (allList st) pid = B pid
  cs_first : st.gantt_chart = [] → st.completed_processes = [] →
    st.context_switches = []
  run_gantt : st.running_process.isSome → st.gantt_chart ≠ []

/-- What every `schedule` call guarantees, relating its input state (before
the arrival batch is admitted) to its result. -/
def SchedShape (st r : SimState) (arrivals : List Process) : Prop :=
  r.pending = st.pending ∧
  r.current_time = st.current_time ∧
  r.waiting_queue = st.waiting_queue ∧
  r.completed_processes = st.completed_processes ∧
  r.gantt_chart = st.gantt_chart ∧
  r.idle_time = st.idle_time ∧
  r.time_quantum = st.time_quantum ∧
  ((r.ready_queue ++ r.running_process.toList).map coreOf).Perm
    ((st.ready_queue ++ st.running_process.toList ++ arrivals).map coreOf) ∧
  ((∀ p ∈ st.ready_queue ++ st.running_process.toList, p.state ≠ ProcState.WAITING) →
    ∀ p ∈ r.ready_queue ++ r.running_process.toList, p.state ≠ ProcState.WAITING) ∧
  (st.gantt_chart = [] → st.completed_processes = [] → st.running_process = none →
    r.context_switches = st.context_switches) ∧
  (r.running_process = none →
    r.ready_queue = [] ∧ st.running_process = none ∧ st.ready_queue = [] ∧
      arrivals = [])

/-- What the selection part of a `schedule` method (everything after the
admission loop) guarantees, relating its input state to its result. -/
def CoreShape (st r : SimState) : Prop :=
  r.pending = st.pending ∧
  r.current_time = st.current_time ∧
  r.waiting_queue = st.waiting_queue ∧
  r.completed_processes = st.completed_processes ∧
  r.gantt_chart = st.gantt_chart ∧
  r.idle_time = st.idle_time ∧
  r.time_quantum = st.time_quantum ∧
  ((r.ready_queue ++ r.running_process.toList).map coreOf).Perm
    ((st.ready_queue ++ st.running_process.toList).map coreOf) ∧
  ((∀ p ∈ st.ready_queue ++ st.running_process.toList, p.state ≠ ProcState.WAITING) →
    ∀ p ∈ r.ready_queue ++ r.running_process.toList, p.state ≠ ProcState.WAITING) ∧
  (st.gantt_chart = [] → st.completed_processes = [] → st.running_process = none →
    r.context_switches = st.context_switches) ∧
  (r.running_process = none →
    r.ready_queue = [] ∧ st.running_process = none ∧ st.ready_queue = [])

/-- True while the engine waits for the next arrival: nothing is ready or
running but unarrived input remains in the future. -/
def waitFlag (st : SimState) : Bool :=
  match st.pending with
  | [] => false
  | nxt :: _ =>
    st.running_process.isNone && st.ready_queue.isEmpty &&
      decide (st.current_time < nxt.arrival_time)

/-- Total remaining time (as a natural number) of the active processes. -/
def remNatSum (st : SimState) : Nat :=
  ((activeList st).map (fun p => p.remaining_time.toNat)).sum

/-- Termination measure of the simulation loop: strictly decreases at every
iteration whose guard holds. -/
def loopMeasure (st : SimState) : Nat :=
  2 * remNatSum st + 3 * st.pending.length + (if waitFlag st then 1 else 0)

/-- P1 of the single-process Round Robin walkthrough (arrival 0, burst 6)
after four executed ticks. -/
def rrP1Running : Process :=
  { mkProcess 1 0 6 0 with
      state := ProcState.RUNNING
      remaining_time := 2
      start_time := some 0
      response_time := some 0 }

/-- `rrP1Running` as re-queued by the quantum expiry. -/
def rrP1Ready : Process := { rrP1Running with state := ProcState.READY }

/-- The Round Robin state at t=4 of that walkthrough, just before the
`schedule` call whose quantum check fires: P1 is running with 2 remaining
and an exhausted quantum. -/
def rrExpiryDemo : SimState :=
  { current_time := 4
    ready_queue := []
    waiting_queue := []
    completed_processes := []
    running_process := some rrP1Running
    timeline := []
    state_changes := []
    context_switches := []
    gantt_chart := [({ pid := 1, start := 0, end_ := 1, duration := 1 } : GanttEntry),
      ({ pid := 1, start := 1, end_ := 2, duration := 1 } : GanttEntry),
      ({ pid := 1, start := 2, end_ := 3, duration := 1 } : GanttEntry),
      ({ pid := 1, start := 3, end_ := 4, duration := 1 } : GanttEntry)]
    explanations := []
    time_quantum := 4
    current_quantum_remaining := 0
    pending := []
    idle_time := 0 }

/-- The same state after the expiry re-queued P1: CPU free, P1 at the queue
head, ready for the dispatch step. -/
def rrDispatchDemo : SimState :=
  { rrExpiryDemo with running_process := none, ready_queue := [rrP1Ready] }

/-- P1 of the SRTF walkthrough (arrival 0, burst 5) after one executed
tick. -/
def srtfP1Running : Process :=
  { mkProcess 1 0 5 0 with
      state := ProcState.RUNNING
      remaining_time := 4
      start_time := some 0
      response_time := some 0 }

/-- P2 of the SRTF walkthrough (arrival 1, burst 2), just admitted. -/
def srtfP2Ready : Process := { mkProcess 2 1 2 0 with state := ProcState.READY }

/-- The SRTF state at t=1 of that walkthrough, after admission and sorting:
P1 is running with 4 remaining while the queue head P2 has 2 remaining, so
the preemption check fires. -/
def srtfDemo : SimState :=
  { rrExpiryDemo with
      current_time := 1
      running_process := some srtfP1Running
      ready_queue := [srtfP2Ready]
      gantt_chart := [({ pid := 1, start := 0, end_ := 1, duration := 1 } : GanttEntry)] }

/-!  Properties of the stable sort. -/

theorem orderedInsert_perm (le : α → α → Bool) (x : α) (l : List α) :
    (orderedInsert le x l).Perm (x :: l) := by
  induction l with
  | nil => simp [orderedInsert]
  | cons y ys ih =>
    simp only [orderedInsert]
    split
    · exact List.Perm.refl _
    · exact (ih.cons y).trans (List.Perm.swap x y ys)

theorem sortByKey_perm (le : α → α → Bool) (l : List α) :
    (sortByKey le l).Perm l := by
  induction l with
  | nil => exact List.Perm.refl _
  | cons x xs ih =>
    exact (orderedInsert_perm le x (sortByKey le xs)).trans (ih.cons x)

theorem pairwise_orderedInsert (le : α → α → Bool)
    (htot : ∀ a b, le a b = true ∨ le b a = true)
    (htrans : ∀ a b c, le a b = true → le b c = true → le a c = true)
    (x : α) (l : List α) (h : l.Pairwise (fun a b => le a b = true)) :
    (orderedInsert le x l).Pairwise (fun a b => le a b = true) := by
  induction l with
  | nil => simp [orderedInsert]
  | cons y ys ih =>
    rcases List.pairwise_cons.mp h with ⟨hy, hys⟩
    simp only [orderedInsert]
    split
    · refine List.pairwise_cons.mpr ⟨?_, h⟩
      intro z hz
      rcases List.mem_cons.mp hz with rfl | hz
      · assumption
      · exact htrans _ _ _ (by assumption) (hy z hz)
    · refine List.pairwise_cons.mpr ⟨?_, ih hys⟩
      intro z hz
      have hz' := (orderedInsert_perm le x ys).mem_iff.mp hz
      rcases List.mem_cons.mp hz' with rfl | hz'
      · rcases htot z y with hc | hc
        · exact absurd hc (by assumption)
        · exact hc
      · exact hy z hz'

theorem pairwise_sortByKey (le : α → α → Bool)
    (htot : ∀ a b, le a b = true ∨ le b a = true)
    (htrans : ∀ a b c, le a b = true → le b c = true → le a c = true)
    (l : List α) :
    (sortByKey le l).Pairwise (fun a b => le a b = true) := by
  induction l with
  | nil => simp [sortByKey]
  | cons x xs ih => exact pairwise_orderedInsert le htot htrans x _ ih

theorem sortByKey_head_le (le : α → α → Bool)
    (htot : ∀ a b, le a b = true ∨ le b a = true)
    (htrans : ∀ a b c, le a b = true → le b c = true → le a c = true)
    (l : List α) (x : α) (xs : List α) (h : sortByKey le l = x :: xs) :
    ∀ y ∈ l, le x y = true := by
  intro y hy
  have hmem : y ∈ x :: xs := by
    rw [← h]
    exact (sortByKey_perm le l).mem_iff.mpr hy
  rcases List.mem_cons.mp hmem with rfl | hmem
  · rcases htot y y with hc | hc <;> exact hc
  · have hp := pairwise_sortByKey le htot htrans l
    rw [h] at hp
    exact (List.pairwise_cons.mp hp).1 y hmem

theorem sjfKeyLe_total : ∀ a b, sjfKeyLe a b = true ∨ sjfKeyLe b a = true := by
  intro a b
  simp only [sjfKeyLe, decide_eq_true_eq]
  omega

theorem sjfKeyLe_trans : ∀ a b c,
    sjfKeyLe a b = true → sjfKeyLe b c = true → sjfKeyLe a c = true := by
  intro a b c
  simp only [sjfKeyLe, decide_eq_true_eq]
  omega

theorem priorityKeyLe_total : ∀ a b,
    priorityKeyLe a b = true ∨ priorityKeyLe b a = true := by
  intro a b
  simp only [priorityKeyLe, decide_eq_true_eq]
  omega

theorem priorityKeyLe_trans : ∀ a b c,
    priorityKeyLe a b = true → priorityKeyLe b c = true →
    priorityKeyLe a c = true := by
  intro a b c
  simp only [priorityKeyLe, decide_eq_true_eq]
  omega

/-!  Field bookkeeping of the admission loop. -/

theorem admitAll_spec (f : Process → String) :
    ∀ (arrivals : List Process) (st : SimState),
    (admitAll st arrivals f).ready_queue = st.ready_queue ++ arrivals.map readyify ∧
    (admitAll st arrivals f).running_process = st.running_process ∧
    (admitAll st arrivals f).pending = st.pending ∧
    (admitAll st arrivals f).current_time = st.current_time ∧
    (admitAll st arrivals f).waiting_queue = st.waiting_queue ∧
    (admitAll st arrivals f).completed_processes = st.completed_processes ∧
    (admitAll st arrivals f).gantt_chart = st.gantt_chart ∧
    (admitAll st arrivals f).context_switches = st.context_switches ∧
    (admitAll st arrivals f).idle_time = st.idle_time ∧
    (admitAll st arrivals f).time_quantum = st.time_quantum ∧
    (admitAll st arrivals f).current_quantum_remaining = st.current_quantum_remaining ∧
    (admitAll st arrivals f).state_changes =
      st.state_changes ++ arrivals.map (arrivalRecord st.current_time) := by
  intro arrivals
  induction arrivals with
  | nil => intro st; simp [admitAll]
  | cons a as ih =>
    intro st
    have step : admitAll st (a :: as) f =
        admitAll (add_explanation (add_process st a) (f a)) as f := by
      simp [admitAll]
    rw [step]
    obtain ⟨h1, h2, h3, h4, h5, h6, h7, h8, h9, h10, h11, h12⟩ :=
      ih (add_explanation (add_process st a) (f a))
    rw [h1, h2, h3, h4, h5, h6, h7, h8, h9, h10, h11, h12]
    simp [add_explanation, add_process, record_state_change, add_timeline_event,
      readyify, arrivalRecord]


/-!  Projection lemmas for the logging helpers; they only append to their
own log. -/

@[simp] theorem record_state_change_current_time (st : SimState) (pid : Int) (f t : ProcState) (reason : String) :
    (record_state_change st pid f t reason).current_time = st.current_time := rfl

@[simp] theorem record_state_change_ready_queue (st : SimState) (pid : Int) (f t : ProcState) (reason : String) :
    (record_state_change st pid f t reason).ready_queue = st.ready_queue := rfl

@[simp] theorem record_state_change_waiting_queue (st : SimState) (pid : Int) (f t : ProcState) (reason : String) :
    (record_state_change st pid f t reason).waiting_queue = st.waiting_queue := rfl

@[simp] theorem record_state_change_completed_processes (st : SimState) (pid : Int) (f t : ProcState) (reason : String) :
    (record_state_change st pid f t reason).completed_processes = st.completed_processes := rfl

@[simp] theorem record_state_change_running_process (st : SimState) (pid : Int) (f t : ProcState) (reason : String) :
    (record_state_change st pid f t reason).running_process = st.running_process := rfl

@[simp] theorem record_state_change_context_switches (st : SimState) (pid : Int) (f t : ProcState) (reason : String) :
    (record_state_change st pid f t reason).context_switches = st.context_switches := rfl

@[simp] theorem record_state_change_gantt_chart (st : SimState) (pid : Int) (f t : ProcState) (reason : String) :
    (record_state_change st pid f t reason).gantt_chart = st.gantt_chart := rfl

@[simp] theorem record_state_change_time_quantum (st : SimState) (pid : Int) (f t : ProcState) (reason : String) :
    (record_state_change st pid f t reason).time_quantum = st.time_quantum := rfl

@[simp] theorem record_state_change_current_quantum_remaining (st : SimState) (pid : Int) (f t : ProcState) (reason : String) :
    (record_state_change st pid f t reason).current_quantum_remaining = st.current_quantum_remaining := rfl

@[simp] theorem record_state_change_pending (st : SimState) (pid : Int) (f t : ProcState) (reason : String) :
    (record_state_change st pid f t reason).pending = st.pending := rfl

@[simp] theorem record_state_change_idle_time (st : SimState) (pid : Int) (f t : ProcState) (reason : String) :
    (record_state_change st pid f t reason).idle_time = st.idle_time := rfl

@[simp] theorem add_timeline_event_current_time (st : SimState) (e d : String) :
    (add_timeline_event st e d).current_time = st.current_time := rfl

@[simp] theorem add_timeline_event_ready_queue (st : SimState) (e d : String) :
    (add_timeline_event st e d).ready_queue = st.ready_queue := rfl

@[simp] theorem add_timeline_event_waiting_queue (st : SimState) (e d : String) :
    (add_timeline_event st e d).waiting_queue = st.waiting_queue := rfl

@[simp] theorem add_timeline_event_completed_processes (st : SimState) (e d : String) :
    (add_timeline_event st e d).completed_processes = st.completed_processes := rfl

@[simp] theorem add_timeline_event_running_process (st : SimState) (e d : String) :
    (add_timeline_event st e d).running_process = st.running_process := rfl

@[simp] theorem add_timeline_event_state_changes (st : SimState) (e d : String) :
    (add_timeline_event st e d).state_changes = st.state_changes := rfl

@[simp] theorem add_timeline_event_context_switches (st : SimState) (e d : String) :
    (add_timeline_event st e d).context_switches = st.context_switches := rfl

@[simp] theorem add_timeline_event_gantt_chart (st : SimState) (e d : String) :
    (add_timeline_event st e d).gantt_chart = st.gantt_chart := rfl

@[simp] theorem add_timeline_event_time_quantum (st : SimState) (e d : String) :
    (add_timeline_event st e d).time_quantum = st.time_quantum := rfl

@[simp] theorem add_timeline_event_current_quantum_remaining (st : SimState) (e d : String) :
    (add_timeline_event st e d).current_quantum_remaining = st.current_quantum_remaining := rfl

@[simp] theorem add_timeline_event_pending (st : SimState) (e d : String) :
    (add_timeline_event st e d).pending = st.pending := rfl

@[simp] theorem add_timeline_event_idle_time (st : SimState) (e d : String) :
    (add_timeline_event st e d).idle_time = st.idle_time := rfl

@[simp] theorem add_explanation_current_time (st : SimState) (x : String) :
    (add_explanation st x).current_time = st.current_time := rfl

@[simp] theorem add_explanation_ready_queue (st : SimState) (x : String) :
    (add_explanation st x).ready_queue = st.ready_queue := rfl

@[simp] theorem add_explanation_waiting_queue (st : SimState) (x : String) :
    (add_explanation st x).waiting_queue = st.waiting_queue := rfl

@[simp] theorem add_explanation_completed_processes (st : SimState) (x : String) :
    (add_explanation st x).completed_processes = st.completed_processes := rfl

@[simp] theorem add_explanation_running_process (st : SimState) (x : String) :
    (add_explanation st x).running_process = st.running_process := rfl

@[simp] theorem add_explanation_state_changes (st : SimState) (x : String) :
    (add_explanation st x).state_changes = st.state_changes := rfl

@[simp] theorem add_explanation_context_switches (st : SimState) (x : String) :
    (add_explanation st x).context_switches = st.context_switches := rfl

@[simp] theorem add_explanation_gantt_chart (st : SimState) (x : String) :
    (add_explanation st x).gantt_chart = st.gantt_chart := rfl

@[simp] theorem add_explanation_time_quantum (st : SimState) (x : String) :
    (add_explanation st x).time_quantum = st.time_quantum := rfl

@[simp] theorem add_explanation_current_quantum_remaining (st : SimState) (x : String) :
    (add_explanation st x).current_quantum_remaining = st.current_quantum_remaining := rfl

@[simp] theorem add_explanation_pending (st : SimState) (x : String) :
    (add_explanation st x).pending = st.pending := rfl

@[simp] theorem add_explanation_idle_time (st : SimState) (x : String) :
    (add_explanation st x).idle_time = st.idle_time := rfl

@[simp] theorem context_switch_current_time (st : SimState) (f : Option Process) (t : Process) (reason : String) :
    (context_switch st f t reason).current_time = st.current_time := rfl

@[simp] theorem context_switch_ready_queue (st : SimState) (f : Option Process) (t : Process) (reason : String) :
    (context_switch st f t reason).ready_queue = st.ready_queue := rfl

@[simp] theorem context_switch_waiting_queue (st : SimState) (f : Option Process) (t : Process) (reason : String) :
    (context_switch st f t reason).waiting_queue = st.waiting_queue := rfl

@[simp] theorem context_switch_completed_processes (st : SimState) (f : Option Process) (t : Process) (reason : String) :
    (context_switch st f t reason).completed_processes = st.completed_processes := rfl

@[simp] theorem context_switch_running_process (st : SimState) (f : Option Process) (t : Process) (reason : String) :
    (context_switch st f t reason).running_process = st.running_process := rfl

@[simp] theorem context_switch_state_changes (st : SimState) (f : Option Process) (t : Process) (reason : String) :
    (context_switch st f t reason).state_changes = st.state_changes := rfl

@[simp] theorem context_switch_gantt_chart (st : SimState) (f : Option Process) (t : Process) (reason : String) :
    (context_switch st f t reason).gantt_chart = st.gantt_chart := rfl

@[simp] theorem context_switch_time_quantum (st : SimState) (f : Option Process) (t : Process) (reason : String) :
    (context_switch st f t reason).time_quantum = st.time_quantum := rfl

@[simp] theorem context_switch_current_quantum_remaining (st : SimState) (f : Option Process) (t : Process) (reason : String) :
    (context_switch st f t reason).current_quantum_remaining = st.current_quantum_remaining := rfl

@[simp] theorem context_switch_pending (st : SimState) (f : Option Process) (t : Process) (reason : String) :
    (context_switch st f t reason).pending = st.pending := rfl

@[simp] theorem context_switch_idle_time (st : SimState) (f : Option Process) (t : Process) (reason : String) :
    (context_switch st f t reason).idle_time = st.idle_time := rfl

@[simp] theorem record_state_change_state_changes (st : SimState) (pid : Int)
    (f t : ProcState) (reason : String) :
    (record_state_change st pid f t reason).state_changes =
      st.state_changes ++
        [{ time := st.current_time, pid := pid, from_state := f,
           to_state := t, reason := reason }] := rfl

@[simp] theorem context_switch_context_switches (st : SimState)
    (f : Option Process) (t : Process) (reason : String) :
    (context_switch st f t reason).context_switches =
      st.context_switches ++
        [{ time := st.current_time, from_pid := f.map Process.pid,
           to_pid := t.pid, reason := reason,
           steps := contextSwitchSteps }] := rfl

@[simp] theorem change_state_fst (st : SimState) (p : Process)
    (s : ProcState) (reason : String) :
    (change_state st p s reason).1 = record_state_change st p.pid p.state s reason := rfl

@[simp] theorem change_state_snd (st : SimState) (p : Process)
    (s : ProcState) (reason : String) :
    (change_state st p s reason).2 = { p with state := s } := rfl

/-!  Shape lemmas for the selection parts of the four policies. -/

theorem fcfsCore_shape (st : SimState) : CoreShape st (fcfsCore st) := by
  unfold CoreShape fcfsCore
  rcases hrun : st.running_process with _ | p
  · rcases hready : st.ready_queue with _ | ⟨next, rest⟩
    · simp [hrun, hready]
    · simp only [hrun, hready]
      refine ⟨?_, ?_, ?_, ?_, ?_, ?_, ?_, ?_, ?_, ?_, ?_⟩
      · split <;> simp
      · split <;> simp
      · split <;> simp
      · split <;> simp
      · split <;> simp
      · split <;> simp
      · split <;> simp
      · split <;> (simp; try exact List.perm_append_singleton _ _)
      · split <;>
          (intro h q hq
           apply h
           simp at hq ⊢
           tauto)
      · split
        · rename_i hguard
          intro h1 h2 _
          simp [h1, h2] at hguard
        · intro _ _ _
          simp
      · split <;> (intro hnone; simp at hnone)
  · rcases hready : st.ready_queue with _ | ⟨next, rest⟩ <;> simp [hrun, hready]

theorem sjfDispatch_shape (pre : Bool) (st : SimState) :
    CoreShape st (sjfDispatch pre st) := by
  unfold CoreShape sjfDispatch
  rcases hrun : st.running_process with _ | p
  · rcases hready : st.ready_queue with _ | ⟨next, rest⟩
    · simp [hrun, hready]
    · simp only [hrun, hready]
      refine ⟨?_, ?_, ?_, ?_, ?_, ?_, ?_, ?_, ?_, ?_, ?_⟩
      · split <;> simp
      · split <;> simp
      · split <;> simp
      · split <;> simp
      · split <;> simp
      · split <;> simp
      · split <;> simp
      · split <;> (simp; try exact List.perm_append_singleton _ _)
      · split <;>
          (intro h q hq
           apply h
           simp at hq ⊢
           tauto)
      · split
        · rename_i hguard
          intro h1 h2 _
          simp [h1, h2] at hguard
        · intro _ _ _
          simp
      · split <;> (intro hnone; simp at hnone)
  · rcases hready : st.ready_queue with _ | ⟨next, rest⟩ <;> simp [hrun, hready]

theorem priorityDispatch_shape (st : SimState) :
    CoreShape st (priorityDispatch st) := by
  unfold CoreShape priorityDispatch
  rcases hrun : st.running_process with _ | p
  · rcases hready : st.ready_queue with _ | ⟨next, rest⟩
    · simp [hrun, hready]
    · simp only [hrun, hready]
      refine ⟨?_, ?_, ?_, ?_, ?_, ?_, ?_, ?_, ?_, ?_, ?_⟩
      · split <;> simp
      · split <;> simp
      · split <;> simp
      · split <;> simp
      · split <;> simp
      · split <;> simp
      · split <;> simp
      · split <;> (simp; try exact List.perm_append_singleton _ _)
      · split <;>
          (intro h q hq
           apply h
           simp at hq ⊢
           tauto)
      · split
        · rename_i hguard
          intro h1 h2 _
          simp [h1, h2] at hguard
        · intro _ _ _
          simp
      · split <;> (intro hnone; simp at hnone)
  · rcases hready : st.ready_queue with _ | ⟨next, rest⟩ <;> simp [hrun, hready]

theorem rrDispatch_shape (st : SimState) : CoreShape st (rrDispatch st) := by
  unfold CoreShape rrDispatch
  rcases hrun : st.running_process with _ | p
  · rcases hready : st.ready_queue with _ | ⟨next, rest⟩
    · simp [hrun, hready]
    · simp only [hrun, hready]
      refine ⟨?_, ?_, ?_, ?_, ?_, ?_, ?_, ?_, ?_, ?_, ?_⟩
      · split <;> simp
      · split <;> simp
      · split <;> simp
      · split <;> simp
      · split <;> simp
      · split <;> simp
      · split <;> simp
      · split <;> (simp; try exact List.perm_append_singleton _ _)
      · split <;>
          (intro h q hq
           apply h
           simp at hq ⊢
           tauto)
      · split
        · rename_i hguard
          intro h1 h2 _
          simp [h1, h2] at hguard
        · intro _ _ _
          simp
      · split <;> (intro hnone; simp at hnone)
  · rcases hready : st.ready_queue with _ | ⟨next, rest⟩ <;> simp [hrun, hready]

theorem rrExpiry_spec (st : SimState) :
    (rrExpiry st).pending = st.pending ∧
    (rrExpiry st).current_time = st.current_time ∧
    (rrExpiry st).waiting_queue = st.waiting_queue ∧
    (rrExpiry st).completed_processes = st.completed_processes ∧
    (rrExpiry st).gantt_chart = st.gantt_chart ∧
    (rrExpiry st).idle_time = st.idle_time ∧
    (rrExpiry st).time_quantum = st.time_quantum ∧
    (rrExpiry st).context_switches = st.context_switches ∧
    (((rrExpiry st).ready_queue ++ (rrExpiry st).running_process.toList).map coreOf).Perm
      ((st.ready_queue ++ st.running_process.toList).map coreOf) ∧
    ((∀ p ∈ st.ready_queue ++ st.running_process.toList, p.state ≠ ProcState.WAITING) →
      ∀ p ∈ (rrExpiry st).ready_queue ++ (rrExpiry st).running_process.toList,
        p.state ≠ ProcState.WAITING) ∧
    ((rrExpiry st).running_process = none →
      st.running_process = none ∨ (rrExpiry st).ready_queue ≠ []) ∧
    (st.running_process = none → rrExpiry st = st) := by
  unfold rrExpiry
  rcases hrun : st.running_process with _ | running
  · simp [hrun]
  · simp only [hrun]
    split
    · split
      · refine ⟨by simp, by simp, by simp, by simp, by simp, by simp, by simp,
          by simp, ?_, ?_, ?_, ?_⟩
        · simp [coreOf]
        · intro h q hq
          simp at hq
          rcases hq with hq | rfl
          · exact h q (by simp [hq])
          · simp [readyify]
        · intro _
          right
          simp
        · intro hc
          simp at hc
      · simp [hrun]
    · simp [hrun]

theorem rrCore_shape (st : SimState) : CoreShape st (rrDispatch (rrExpiry st)) := by
  obtain ⟨e1, e2, e3, e4, e5, e6, e7, e8, e9, e10, e11, e12⟩ := rrExpiry_spec st
  obtain ⟨d1, d2, d3, d4, d5, d6, d7, d8, d9, d10, d11⟩ := rrDispatch_shape (rrExpiry st)
  refine ⟨?_, ?_, ?_, ?_, ?_, ?_, ?_, ?_, ?_, ?_, ?_⟩
  · rw [d1, e1]
  · rw [d2, e2]
  · rw [d3, e3]
  · rw [d4, e4]
  · rw [d5, e5]
  · rw [d6, e6]
  · rw [d7, e7]
  · exact d8.trans e9
  · intro h
    exact d9 (e10 h)
  · intro h1 h2 h3
    rw [e12 h3] at d10 ⊢
    exact d10 h1 h2 h3
  · intro h
    obtain ⟨hr1, hr2, hr3⟩ := d11 h
    rcases e11 hr2 with hnone | hne
    · rw [e12 hnone] at hr3
      exact ⟨hr1, hnone, hr3⟩
    · exact absurd hr3 hne

theorem sortReadySJF_spec (st : SimState) :
    (sortReadySJF st).pending = st.pending ∧
    (sortReadySJF st).current_time = st.current_time ∧
    (sortReadySJF st).waiting_queue = st.waiting_queue ∧
    (sortReadySJF st).completed_processes = st.completed_processes ∧
    (sortReadySJF st).gantt_chart = st.gantt_chart ∧
    (sortReadySJF st).idle_time = st.idle_time ∧
    (sortReadySJF st).time_quantum = st.time_quantum ∧
    (sortReadySJF st).context_switches = st.context_switches ∧
    (sortReadySJF st).running_process = st.running_process ∧
    (sortReadySJF st).state_changes = st.state_changes ∧
    (sortReadySJF st).current_quantum_remaining = st.current_quantum_remaining ∧
    (sortReadySJF st).ready_queue.Perm st.ready_queue := by
  unfold sortReadySJF
  split
  · simp
  · exact ⟨rfl, rfl, rfl, rfl, rfl, rfl, rfl, rfl, rfl, rfl, rfl,
      sortByKey_perm sjfKeyLe st.ready_queue⟩

theorem sortReadyPriority_spec (st : SimState) :
    (sortReadyPriority st).pending = st.pending ∧
    (sortReadyPriority st).current_time = st.current_time ∧
    (sortReadyPriority st).waiting_queue = st.waiting_queue ∧
    (sortReadyPriority st).completed_processes = st.completed_processes ∧
    (sortReadyPriority st).gantt_chart = st.gantt_chart ∧
    (sortReadyPriority st).idle_time = st.idle_time ∧
    (sortReadyPriority st).time_quantum = st.time_quantum ∧
    (sortReadyPriority st).context_switches = st.context_switches ∧
    (sortReadyPriority st).running_process = st.running_process ∧
    (sortReadyPriority st).state_changes = st.state_changes ∧
    (sortReadyPriority st).current_quantum_remaining = st.current_quantum_remaining ∧
    (sortReadyPriority st).ready_queue.Perm st.ready_queue := by
  unfold sortReadyPriority
  split
  · simp
  · exact ⟨rfl, rfl, rfl, rfl, rfl, rfl, rfl, rfl, rfl, rfl, rfl,
      sortByKey_perm priorityKeyLe st.ready_queue⟩

theorem sjfCore_shape (pre : Bool) (st : SimState) :
    CoreShape st (sjfCore pre st) := by
  cases pre
  · exact sjfDispatch_shape false st
  · rcases hrun : st.running_process with _ | running
    · unfold sjfCore
      simp only [hrun]
      exact sjfDispatch_shape true st
    · rcases hready : st.ready_queue with _ | ⟨shortest, rest0⟩
      · unfold sjfCore
        simp only [hrun, hready]
        exact sjfDispatch_shape true st
      · unfold sjfCore
        simp only [hrun, hready]
        split
        · rename_i hlt
          simp only [change_state, change_state_fst, change_state_snd]
          unfold CoreShape
          simp only [record_state_change_ready_queue, add_explanation_ready_queue,
            hready]
          rcases hs : sortByKey sjfKeyLe
              ((shortest :: rest0) ++ [{ running with state := ProcState.READY }])
            with _ | ⟨next, rest⟩
          · exfalso
            have hlen := (sortByKey_perm sjfKeyLe
              ((shortest :: rest0) ++ [{ running with state := ProcState.READY }])).length_eq
            rw [hs] at hlen
            simp at hlen
          · simp only [hs]
            refine ⟨by simp, by simp, by simp, by simp, by simp, by simp, by simp,
              ?_, ?_, ?_, ?_⟩
            · have h1 : (rest ++ [next]).Perm (next :: rest) :=
                List.perm_append_singleton next rest
              have h2 : (next :: rest).Perm
                  ((shortest :: rest0) ++ [{ running with state := ProcState.READY }]) := by
                rw [← hs]
                exact sortByKey_perm _ _
              have h3 : ((shortest :: rest0) ++
                  [{ running with state := ProcState.READY }]).map coreOf =
                  ((shortest :: rest0) ++ [running]).map coreOf := by
                simp [coreOf]
              have h4 := (h1.trans h2).map coreOf
              rw [h3] at h4
              simpa [hrun] using h4
            · intro h q hq
              simp at hq
              have hq' : q ∈ next :: rest := by
                rcases hq with hq | rfl
                · exact List.mem_cons_of_mem _ hq
                · exact List.mem_cons_self _ _
              have : q ∈ (shortest :: rest0) ++
                  [{ running with state := ProcState.READY }] := by
                have h2 : (next :: rest).Perm
                    ((shortest :: rest0) ++ [{ running with state := ProcState.READY }]) := by
                  rw [← hs]
                  exact sortByKey_perm _ _
                exact h2.mem_iff.mp hq'
              simp at this
              rcases this with hm | hm | rfl
              · exact h q (by simp [hready, hrun, hm])
              · exact h q (by simp [hready, hrun, hm])
              · simp
            · intro _ _ h3
              rw [hrun] at h3
              simp at h3
            · intro hn
              simp at hn
        · exact sjfDispatch_shape true st

theorem priorityCore_shape (pre : Bool) (st : SimState) :
    CoreShape st (priorityCore pre st) := by
  cases pre
  · exact priorityDispatch_shape st
  · rcases hrun : st.running_process with _ | running
    · unfold priorityCore
      simp only [hrun]
      exact priorityDispatch_shape st
    · rcases hready : st.ready_queue with _ | ⟨highest, rest0⟩
      · unfold priorityCore
        simp only [hrun, hready]
        exact priorityDispatch_shape st
      · unfold priorityCore
        simp only [hrun, hready]
        split
        · rename_i hlt
          simp only [change_state, change_state_fst, change_state_snd]
          unfold CoreShape
          simp only [record_state_change_ready_queue, add_explanation_ready_queue,
            hready]
          rcases hs : sortByKey priorityKeyLe
              ((highest :: rest0) ++ [{ running with state := ProcState.READY }])
            with _ | ⟨next, rest⟩
          · exfalso
            have hlen := (sortByKey_perm priorityKeyLe
              ((highest :: rest0) ++ [{ running with state := ProcState.READY }])).length_eq
            rw [hs] at hlen
            simp at hlen
          · simp only [hs]
            refine ⟨by simp, by simp, by simp, by simp, by simp, by simp, by simp,
              ?_, ?_, ?_, ?_⟩
            · have h1 : (rest ++ [next]).Perm (next :: rest) :=
                List.perm_append_singleton next rest
              have h2 : (next :: rest).Perm
                  ((highest :: rest0) ++ [{ running with state := ProcState.READY }]) := by
                rw [← hs]
                exact sortByKey_perm _ _
              have h3 : ((highest :: rest0) ++
                  [{ running with state := ProcState.READY }]).map coreOf =
                  ((highest :: rest0) ++ [running]).map coreOf := by
                simp [coreOf]
              have h4 := (h1.trans h2).map coreOf
              rw [h3] at h4
              simpa [hrun] using h4
            · intro h q hq
              simp at hq
              have hq' : q ∈ next :: rest := by
                rcases hq with hq | rfl
                · exact List.mem_cons_of_mem _ hq
                · exact List.mem_cons_self _ _
              have : q ∈ (highest :: rest0) ++
                  [{ running with state := ProcState.READY }] := by
                have h2 : (next :: rest).Perm
                    ((highest :: rest0) ++ [{ running with state := ProcState.READY }]) := by
                  rw [← hs]
                  exact sortByKey_perm _ _
                exact h2.mem_iff.mp hq'
              simp at this
              rcases this with hm | hm | rfl
              · exact h q (by simp [hready, hrun, hm])
              · exact h q (by simp [hready, hrun, hm])
              · simp
            · intro _ _ h3
              rw [hrun] at h3
              simp at h3
            · intro hn
              simp at hn
        · exact priorityDispatch_shape st

theorem map_coreOf_readyify (l : List Process) :
    (l.map readyify).map coreOf = l.map coreOf := by
  induction l with
  | nil => rfl
  | cons a as ih => simp [readyify, coreOf] at ih ⊢

theorem coreShape_of_middle (s m : SimState) (core : SimState → SimState)
    (hcore : CoreShape m (core m))
    (h1 : m.pending = s.pending) (h2 : m.current_time = s.current_time)
    (h3 : m.waiting_queue = s.waiting_queue)
    (h4 : m.completed_processes = s.completed_processes)
    (h5 : m.gantt_chart = s.gantt_chart) (h6 : m.idle_time = s.idle_time)
    (h7 : m.time_quantum = s.time_quantum)
    (h8 : m.context_switches = s.context_switches)
    (h9 : m.running_process = s.running_process)
    (h10 : m.ready_queue.Perm s.ready_queue) :
    CoreShape s (core m) := by
  obtain ⟨c1, c2, c3, c4, c5, c6, c7, c8, c9, c10, c11⟩ := hcore
  have hact : ((m.ready_queue ++ m.running_process.toList).map coreOf).Perm
      ((s.ready_queue ++ s.running_process.toList).map coreOf) := by
    rw [h9]
    exact (h10.append (List.Perm.refl _)).map coreOf
  refine ⟨by rw [c1, h1], by rw [c2, h2], by rw [c3, h3], by rw [c4, h4],
    by rw [c5, h5], by rw [c6, h6], by rw [c7, h7], c8.trans hact, ?_, ?_, ?_⟩
  · intro h
    apply c9
    intro p hp
    apply h
    rcases List.mem_append.mp hp with hp | hp
    · exact List.mem_append.mpr (Or.inl (h10.mem_iff.mp hp))
    · rw [h9] at hp
      exact List.mem_append.mpr (Or.inr hp)
  · intro hg hc hr
    rw [c10 (by rw [h5, hg]) (by rw [h4, hc]) (by rw [h9, hr]), h8]
  · intro h
    obtain ⟨hr1, hr2, hr3⟩ := c11 h
    rw [h9] at hr2
    have : s.ready_queue = [] := by
      have hp := h10.symm
      rw [hr3] at hp
      exact hp.eq_nil
    exact ⟨hr1, hr2, this⟩

theorem coreShape_admit (f : Process → String) (arrivals : List Process)
    (st : SimState) (core : SimState → SimState)
    (hcore : ∀ s, CoreShape s (core s)) :
    SchedShape st (core (admitAll st arrivals f)) arrivals := by
  obtain ⟨a1, a2, a3, a4, a5, a6, a7, a8, a9, a10, a11, a12⟩ :=
    admitAll_spec f arrivals st
  obtain ⟨c1, c2, c3, c4, c5, c6, c7, c8, c9, c10, c11⟩ :=
    hcore (admitAll st arrivals f)
  have hact : (((admitAll st arrivals f).ready_queue ++
      (admitAll st arrivals f).running_process.toList).map coreOf).Perm
      ((st.ready_queue ++ st.running_process.toList ++ arrivals).map coreOf) := by
    rw [a1, a2]
    simp only [List.map_append]
    rw [map_coreOf_readyify]
    rw [List.append_assoc, List.append_assoc]
    exact List.Perm.append_left _ List.perm_append_comm
  refine ⟨by rw [c1, a3], by rw [c2, a4], by rw [c3, a5], by rw [c4, a6],
    by rw [c5, a7], by rw [c6, a9], by rw [c7, a10], c8.trans hact, ?_, ?_, ?_⟩
  · intro h
    apply c9
    intro p hp
    rw [a1, a2] at hp
    rcases List.mem_append.mp hp with hp | hp
    · rcases List.mem_append.mp hp with hp | hp
      · exact h p (List.mem_append.mpr (Or.inl hp))
      · obtain ⟨q, _, rfl⟩ := List.mem_map.mp hp
        simp [readyify]
    · exact h p (List.mem_append.mpr (Or.inr hp))
  · intro hg hc hr
    rw [c10 (by rw [a7, hg]) (by rw [a6, hc]) (by rw [a2, hr]), a8]
  · intro h
    obtain ⟨hr1, hr2, hr3⟩ := c11 h
    rw [a2] at hr2
    rw [a1] at hr3
    rcases List.append_eq_nil.mp hr3 with ⟨hre, hme⟩
    exact ⟨hr1, hr2, hre, List.map_eq_nil_iff.mp hme⟩

theorem schedule_shape (pol : Policy) (st : SimState) (arrivals : List Process) :
    SchedShape st (schedule pol st arrivals) arrivals := by
  cases pol with
  | fcfs =>
    exact coreShape_admit fcfsArrivalText arrivals st fcfsCore fcfsCore_shape
  | sjf pre =>
    refine coreShape_admit sjfArrivalText arrivals st
      (fun s => sjfCore pre (sortReadySJF s)) (fun s => ?_)
    obtain ⟨s1, s2, s3, s4, s5, s6, s7, s8, s9, s10, s11, s12⟩ :=
      sortReadySJF_spec s
    exact coreShape_of_middle s (sortReadySJF s) (sjfCore pre)
      (sjfCore_shape pre (sortReadySJF s)) s1 s2 s3 s4 s5 s6 s7 s8 s9 s12
  | priority pre =>
    refine coreShape_admit priorityArrivalText arrivals st
      (fun s => priorityCore pre (sortReadyPriority s)) (fun s => ?_)
    obtain ⟨s1, s2, s3, s4, s5, s6, s7, s8, s9, s10, s11, s12⟩ :=
      sortReadyPriority_spec s
    exact coreShape_of_middle s (sortReadyPriority s) (priorityCore pre)
      (priorityCore_shape pre (sortReadyPriority s)) s1 s2 s3 s4 s5 s6 s7 s8 s9 s12
  | round_robin =>
    exact coreShape_admit rrArrivalText arrivals st
      (fun s => rrDispatch (rrExpiry s)) rrCore_shape

/-!  Characterisation of one executed time unit. -/

theorem execute_spec (st : SimState) (p : Process)
    (hrun : st.running_process = some p) (hrem : 1 ≤ p.remaining_time) :
    ∃ p', (execute_process st 1).running_process = some p' ∧
      p'.pid = p.pid ∧ p'.arrival_time = p.arrival_time ∧
      p'.burst_time = p.burst_time ∧
      p'.remaining_time = p.remaining_time - 1 ∧
      p'.state ≠ ProcState.WAITING ∧
      (execute_process st 1).current_time = st.current_time + 1 ∧
      (execute_process st 1).pending = st.pending ∧
      (execute_process st 1).ready_queue = st.ready_queue ∧
      (execute_process st 1).waiting_queue = st.waiting_queue ∧
      (execute_process st 1).gantt_chart = st.gantt_chart ++
        [{ pid := p.pid, start := st.current_time,
           end_ := st.current_time + 1, duration := 1 }] ∧
      (execute_process st 1).context_switches = st.context_switches ∧
      (execute_process st 1).time_quantum = st.time_quantum ∧
      (execute_process st 1).idle_time = st.idle_time ∧
      (if p.remaining_time = 1 then
        (execute_process st 1).completed_processes =
          st.completed_processes ++ [p'] ∧
        p'.state = ProcState.TERMINATED ∧
        p'.completion_time = some (st.current_time + 1) ∧
        p'.turnaround_time = st.current_time + 1 - p.arrival_time ∧
        p'.wait_time = p'.turnaround_time - p.burst_time
      else
        (execute_process st 1).completed_processes = st.completed_processes ∧
        p'.state = ProcState.RUNNING) := by
  have hmin : min (1 : Int) p.remaining_time = 1 := min_eq_left hrem
  by_cases hrem1 : p.remaining_time = 1
  · by_cases hps : p.state = ProcState.RUNNING
    · refine
        ⟨{ p with
             state := ProcState.TERMINATED,
             remaining_time := p.remaining_time - 1,
             wait_time := st.current_time + 1 - p.arrival_time - p.burst_time,
             turnaround_time := st.current_time + 1 - p.arrival_time,
             completion_time := some (st.current_time + 1) },
         ?_, ?_, ?_, ?_, ?_, ?_, ?_, ?_, ?_, ?_, ?_, ?_, ?_, ?_, ?_⟩ <;>
        simp [execute_process, complete_process, change_state, hrun, hps, hmin,
          hrem1]
    · by_cases hst : p.start_time = none
      · refine
          ⟨{ p with
               state := ProcState.TERMINATED,
               start_time := some st.current_time,
               response_time := some (st.current_time - p.arrival_time),
               remaining_time := p.remaining_time - 1,
               wait_time := st.current_time + 1 - p.arrival_time - p.burst_time,
               turnaround_time := st.current_time + 1 - p.arrival_time,
               completion_time := some (st.current_time + 1) },
           ?_, ?_, ?_, ?_, ?_, ?_, ?_, ?_, ?_, ?_, ?_, ?_, ?_, ?_, ?_⟩ <;>
          simp [execute_process, complete_process, change_state, hrun, hps,
            hmin, hrem1, hst]
      · refine
          ⟨{ p with
               state := ProcState.TERMINATED,
               remaining_time := p.remaining_time - 1,
               wait_time := st.current_time + 1 - p.arrival_time - p.burst_time,
               turnaround_time := st.current_time + 1 - p.arrival_time,
               completion_time := some (st.current_time + 1) },
           ?_, ?_, ?_, ?_, ?_, ?_, ?_, ?_, ?_, ?_, ?_, ?_, ?_, ?_, ?_⟩ <;>
          simp [execute_process, complete_process, change_state, hrun, hps,
            hmin, hrem1, hst]
  · have hner : ¬p.remaining_time - 1 = 0 := by omega
    by_cases hps : p.state = ProcState.RUNNING
    · refine
        ⟨{ p with remaining_time := p.remaining_time - 1 },
         ?_, ?_, ?_, ?_, ?_, ?_, ?_, ?_, ?_, ?_, ?_, ?_, ?_, ?_, ?_⟩ <;>
        simp [execute_process, change_state, hrun, hps, hmin, hrem1, hner]
    · by_cases hst : p.start_time = none
      · refine
          ⟨{ p with
               state := ProcState.RUNNING,
               start_time := some st.current_time,
               response_time := some (st.current_time - p.arrival_time),
               remaining_time := p.remaining_time - 1 },
           ?_, ?_, ?_, ?_, ?_, ?_, ?_, ?_, ?_, ?_, ?_, ?_, ?_, ?_, ?_⟩ <;>
          simp [execute_process, change_state, hrun, hps, hmin, hrem1, hner, hst]
      · refine
          ⟨{ p with
               state := ProcState.RUNNING,
               remaining_time := p.remaining_time - 1 },
           ?_, ?_, ?_, ?_, ?_, ?_, ?_, ?_, ?_, ?_, ?_, ?_, ?_, ?_, ?_⟩ <;>
          simp [execute_process, change_state, hrun, hps, hmin, hrem1, hner, hst]

/-!  Sum bookkeeping lemmas. -/

theorem remSumL_append (l1 l2 : List Process) (pid : Int) :
    remSumL (l1 ++ l2) pid = remSumL l1 pid + remSumL l2 pid := by
  simp [remSumL, List.filter_append]

theorem remSumL_singleton (x : Process) (pid : Int) :
    remSumL [x] pid = if x.pid = pid then x.remaining_time else 0 := by
  by_cases h : x.pid = pid <;> simp [remSumL, List.filter_singleton, h]

theorem remSumL_eq_remSumC (l : List Process) (pid : Int) :
    remSumL l pid = remSumC (l.map coreOf) pid := by
  induction l with
  | nil => rfl
  | cons a as ih =>
    simp only [remSumL, remSumC] at ih ⊢
    simp only [List.map_cons, List.filter_cons]
    by_cases h : a.pid = pid
    · simp [coreOf, h, ih]
    · simp [coreOf, h, ih]

theorem remSumC_perm {c1 c2 : List (Int × Int × Int × Int)} (h : c1.Perm c2)
    (pid : Int) : remSumC c1 pid = remSumC c2 pid := by
  unfold remSumC
  exact ((h.filter _).map _).sum_eq

theorem ganttSumL_append (l1 l2 : List GanttEntry) (pid : Int) :
    ganttSumL (l1 ++ l2) pid = ganttSumL l1 pid + ganttSumL l2 pid := by
  simp [ganttSumL, List.filter_append]

theorem ganttSumL_singleton (e : GanttEntry) (pid : Int) :
    ganttSumL [e] pid = if e.pid = pid then e.duration else 0 := by
  by_cases h : e.pid = pid <;> simp [ganttSumL, List.filter_singleton, h]

/-!  The loop invariant and its preservation. -/

theorem simInv_untouched (B : Int → Int) (st st' : SimState)
    (hpend : st'.pending = st.pending)
    (hready : st'.ready_queue = st.ready_queue)
    (hwait : st'.waiting_queue = st.waiting_queue)
    (hcomp : st'.completed_processes = st.completed_processes)
    (hrun : st'.running_process = st.running_process)
    (hgantt : st'.gantt_chart = st.gantt_chart)
    (hcs : st'.context_switches = st.context_switches)
    (h : SimInv B st) : SimInv B st' := by
  obtain ⟨iwait, inowait, ipend, iready, irun, icomp, igantt, isums, icsf, irg⟩ := h
  have hall : allList st' = allList st := by
    simp [allList, activeList, hpend, hready, hwait, hcomp, hrun]
  refine ⟨?_, ?_, ?_, ?_, ?_, ?_, ?_, ?_, ?_, ?_⟩
  · rw [hwait]
    exact iwait
  · rw [hall]
    exact inowait
  · rw [hpend]
    exact ipend
  · rw [hready]
    exact iready
  · rw [hrun]
    exact irun
  · rw [hcomp, hgantt]
    exact icomp
  · rw [hgantt]
    exact igantt
  · intro pid
    rw [hall]
    have : ganttSum st' pid = ganttSum st pid := by rw [ganttSum, ganttSum, hgantt]
    rw [this]
    exact isums pid
  · rw [hgantt, hcomp, hcs]
    exact icsf
  · rw [hrun, hgantt]
    exact irg

theorem simInv_clear_running (B : Int → Int) (st : SimState) (p : Process)
    (hp : st.running_process = some p) (h0 : p.remaining_time = 0)
    (h : SimInv B st) : SimInv B { st with running_process := none } := by
  obtain ⟨iwait, inowait, ipend, iready, irun, icomp, igantt, isums, icsf, irg⟩ := h
  refine ⟨iwait, ?_, ipend, iready, ?_, icomp, igantt, ?_, icsf, ?_⟩
  · intro q hq
    apply inowait
    simp only [allList, activeList, hp] at hq ⊢
    simp at hq ⊢
    tauto
  · intro q hq
    simp at hq
  · intro pid
    have hs := isums pid
    have hg : ganttSum { st with running_process := none } pid = ganttSum st pid := rfl
    simp only [allList, activeList, hp] at hs ⊢
    simp only [List.append_assoc] at hs ⊢
    rw [hg]
    rw [remSumL_append, remSumL_append, remSumL_append] at hs ⊢
    simp only [Option.toList_some, Option.toList_none] at hs ⊢
    rw [remSumL_singleton] at hs
    have hz : (if p.pid = pid then p.remaining_time else 0) = 0 := by
      rw [h0]
      split <;> rfl
    rw [hz] at hs
    have hnil : remSumL ([] : List Process) pid = 0 := rfl
    rw [hnil]
    omega
  · intro hs
    simp at hs

theorem tickRest_exec_inv (pol : Policy) (B : Int → Int) (s2 : SimState)
    (q : Process) (hr : s2.running_process = some q)
    (h1 : ∀ p', (execute_process s2 1).running_process = some p' →
      p'.remaining_time = 0 →
      SimInv B { execute_process s2 1 with running_process := none })
    (h2 : ∀ p', (execute_process s2 1).running_process = some p' →
      ¬p'.remaining_time = 0 → SimInv B (execute_process s2 1))
    (h3 : (execute_process s2 1).running_process = none →
      SimInv B (execute_process s2 1)) :
    SimInv B (tickRest pol s2) := by
  unfold tickRest
  rw [hr]
  cases pol with
  | round_robin =>
    rcases hrp : (execute_process s2 1).running_process with _ | pp
    · simp only [hrp]
      exact simInv_untouched B (execute_process s2 1) _ rfl rfl rfl rfl
        (by rw [hrp]) rfl rfl (h3 hrp)
    · simp only [hrp]
      by_cases h0 : pp.remaining_time = 0
      · rw [if_pos h0]
        exact simInv_untouched B
          { execute_process s2 1 with running_process := none } _ rfl rfl rfl
          rfl rfl rfl rfl (h1 pp hrp h0)
      · rw [if_neg h0]
        exact simInv_untouched B (execute_process s2 1) _ rfl rfl rfl rfl
          (by rw [hrp]) rfl rfl (h2 pp hrp h0)
  | fcfs =>
    rcases hrp : (execute_process s2 1).running_process with _ | pp
    · simp only [hrp]
      exact h3 hrp
    · simp only [hrp]
      by_cases h0 : pp.remaining_time = 0
      · rw [if_pos h0]
        exact h1 pp hrp h0
      · rw [if_neg h0]
        exact h2 pp hrp h0
  | sjf pre =>
    rcases hrp : (execute_process s2 1).running_process with _ | pp
    · simp only [hrp]
      exact h3 hrp
    · simp only [hrp]
      by_cases h0 : pp.remaining_time = 0
      · rw [if_pos h0]
        exact h1 pp hrp h0
      · rw [if_neg h0]
        exact h2 pp hrp h0
  | priority pre =>
    rcases hrp : (execute_process s2 1).running_process with _ | pp
    · simp only [hrp]
      exact h3 hrp
    · simp only [hrp]
      by_cases h0 : pp.remaining_time = 0
      · rw [if_pos h0]
        exact h1 pp hrp h0
      · rw [if_neg h0]
        exact h2 pp hrp h0

set_option maxHeartbeats 1600000 in
theorem tick_inv (pol : Policy) (B : Int → Int) (st : SimState)
    (hinv : SimInv B st) : SimInv B (tick pol st) := by
  obtain ⟨iwait, inowait, ipend, iready, irun, icomp, igantt, isums, icsf, irg⟩ := hinv
  have hT : tick pol st = tickRest pol
      (schedule pol
        { st with pending :=
            st.pending.dropWhile (fun p => decide (p.arrival_time ≤ st.current_time)) }
        (st.pending.takeWhile (fun p => decide (p.arrival_time ≤ st.current_time)))) := rfl
  rw [hT]
  set arrivals :=
    st.pending.takeWhile (fun p => decide (p.arrival_time ≤ st.current_time)) with harr
  set st1 : SimState :=
    { st with pending :=
        st.pending.dropWhile (fun p => decide (p.arrival_time ≤ st.current_time)) } with hst1def
  have hsplit : arrivals ++ st1.pending = st.pending := by
    rw [harr, hst1def]
    exact List.takeWhile_append_dropWhile
      (p := fun p => decide (p.arrival_time ≤ st.current_time)) (l := st.pending)
  have hw1 : st1.waiting_queue = st.waiting_queue := by rw [hst1def]
  have hr1 : st1.ready_queue = st.ready_queue := by rw [hst1def]
  have hrn1 : st1.running_process = st.running_process := by rw [hst1def]
  have hc1 : st1.completed_processes = st.completed_processes := by rw [hst1def]
  have hg1 : st1.gantt_chart = st.gantt_chart := by rw [hst1def]
  have hcs1 : st1.context_switches = st.context_switches := by rw [hst1def]
  have ht1 : st1.current_time = st.current_time := by rw [hst1def]
  obtain ⟨s1, s2, s3, s4, s5, s6, s7, sperm, swait, scs, sdisp⟩ :=
    schedule_shape pol st1 arrivals
  set st2 := schedule pol st1 arrivals with hst2def
  have harrmem : ∀ q ∈ arrivals, q ∈ st.pending := by
    intro q hq
    rw [← hsplit]
    exact List.mem_append.mpr (Or.inl hq)
  have hRHS : ∀ q ∈ st1.ready_queue ++ st1.running_process.toList ++ arrivals,
      1 ≤ q.remaining_time ∧ q.state ≠ ProcState.WAITING := by
    intro q hq
    rcases List.mem_append.mp hq with hq | hq
    · rcases List.mem_append.mp hq with hq | hq
      · rw [hr1] at hq
        exact ⟨iready q hq, inowait q (by simp [allList, activeList, hq])⟩
      · rw [hrn1] at hq
        rcases hro : st.running_process with _ | rp
        · rw [hro] at hq
          simp at hq
        · rw [hro] at hq
          simp at hq
          subst hq
          exact ⟨irun q hro, inowait q (by simp [allList, activeList, hro])⟩
    · have hq' := harrmem q hq
      exact ⟨ipend q hq', inowait q (by simp [allList, activeList, hq'])⟩
  have hact_rem : ∀ q ∈ st2.ready_queue ++ st2.running_process.toList,
      1 ≤ q.remaining_time := by
    intro q hq
    have hc : coreOf q ∈ (st2.ready_queue ++ st2.running_process.toList).map coreOf :=
      List.mem_map_of_mem coreOf hq
    have hc2 := sperm.mem_iff.mp hc
    obtain ⟨q', hq', hcq⟩ := List.mem_map.mp hc2
    have hrem := (hRHS q' hq').1
    have : q'.remaining_time = q.remaining_time := by
      simp [coreOf] at hcq
      exact hcq.2.1
    omega
  have hact_state : ∀ q ∈ st2.ready_queue ++ st2.running_process.toList,
      q.state ≠ ProcState.WAITING := by
    apply swait
    intro q hq
    exact (hRHS q (List.mem_append.mpr (Or.inl hq))).2
  have hsum_active : ∀ pid,
      remSumL (st2.ready_queue ++ st2.running_process.toList) pid =
      remSumL st.ready_queue pid + remSumL st.running_process.toList pid +
        remSumL arrivals pid := by
    intro pid
    rw [remSumL_eq_remSumC]
    rw [remSumC_perm sperm pid]
    rw [← remSumL_eq_remSumC]
    rw [remSumL_append, remSumL_append, hr1, hrn1]
  have hdropfix : List.dropWhile
      (fun p => decide (p.arrival_time ≤ st.current_time)) st.pending =
      st1.pending := by rw [hst1def]
  clear_value st2
  rcases hrun2 : st2.running_process with _ | p
  · -- idle branch: nothing was dispatched
    obtain ⟨hr2ready, hr1run, hr1ready, harrnil⟩ := sdisp hrun2
    have hrunSt : st.running_process = none := by rw [← hrn1]; exact hr1run
    have hreadySt : st.ready_queue = [] := by rw [← hr1]; exact hr1ready
    have hpend1 : st1.pending = st.pending := by
      rw [harrnil] at hsplit
      simpa using hsplit
    have hInv2 : SimInv B st2 := by
      refine ⟨?_, ?_, ?_, ?_, ?_, ?_, ?_, ?_, ?_, ?_⟩
      · rw [s3, hw1]
        exact iwait
      · intro q hq
        simp only [allList, activeList] at hq
        rw [s1, hpend1, hr2ready, hrun2, s4, hc1] at hq
        simp at hq
        apply inowait
        simp [allList, activeList]
        tauto
      · intro q hq
        rw [s1, hpend1] at hq
        exact ipend q hq
      · intro q hq
        rw [hr2ready] at hq
        simp at hq
      · intro q hq
        rw [hrun2] at hq
        simp at hq
      · intro q hq
        rw [s4, hc1] at hq
        have := icomp q hq
        rw [s5, hg1]
        exact this
      · intro e he
        rw [s5, hg1] at he
        exact igantt e he
      · intro pid
        have h2 := isums pid
        simp only [allList, activeList] at h2 ⊢
        have hgs : ganttSum st2 pid = ganttSum st pid := by
          rw [ganttSum, ganttSum, s5, hg1]
        rw [hgs, s1, hpend1, hr2ready, hrun2, s4, hc1]
        rw [hreadySt, hrunSt] at h2
        simpa using h2
      · intro hg hc
        rw [s5, hg1] at hg
        rw [s4, hc1] at hc
        have := scs (by rw [hg1, hg]) (by rw [hc1, hc]) hr1run
        rw [this, hcs1]
        exact icsf hg hc
      · intro hs
        rw [hrun2] at hs
        simp at hs
    unfold tickRest
    rw [hrun2]
    rcases hpend2 : st2.pending with _ | ⟨nxt, rest⟩
    · simp only [hpend2]
      exact hInv2
    · simp only [hpend2]
      split
      · exact simInv_untouched B st2 _ (by simp) (by simp) (by simp) (by simp)
          (by simp) (by simp) (by simp) hInv2
      · exact hInv2
  · -- execute branch
    have hrem2 : 1 ≤ p.remaining_time :=
      hact_rem p (List.mem_append.mpr (Or.inr (by rw [hrun2]; simp)))
    obtain ⟨p', e_run, e_pid, e_arr, e_burst, e_rem, e_state, e_time, e_pend,
      e_ready, e_wait, e_gantt, e_cs, e_tq, e_idle, e_if⟩ :=
      execute_spec st2 p hrun2 hrem2
    set st3 := execute_process st2 1 with hst3def
    clear_value st3
    have hg2 : st2.gantt_chart = st.gantt_chart := by rw [s5, hg1]
    have ht2 : st2.current_time = st.current_time := by rw [s2, ht1]
    have hgantt3 : ∀ pid, ganttSumL st3.gantt_chart pid =
        ganttSum st pid + (if p.pid = pid then 1 else 0) := by
      intro pid
      rw [e_gantt, ganttSumL_append, ganttSumL_singleton, hg2]
      rfl
    have hpend_sum : ∀ pid, remSumL st.pending pid =
        remSumL arrivals pid + remSumL st1.pending pid := by
      intro pid
      rw [← hsplit, remSumL_append]
    -- the balance of per-pid remaining time after this tick, with the
    -- executed process accounted separately
    have hbal : ∀ pid,
        ganttSumL st3.gantt_chart pid +
          (remSumL st3.pending pid + remSumL st3.ready_queue pid +
            remSumL st.completed_processes pid +
            (if p.pid = pid then p.remaining_time - 1 else 0)) = B pid := by
      intro pid
      have hfix : remSumL (List.dropWhile
          (fun p => decide (p.arrival_time ≤ st.current_time)) st.pending) pid =
          remSumL st1.pending pid := by rw [hdropfix]
      have h0 := isums pid
      simp only [allList, activeList] at h0
      rw [remSumL_append, remSumL_append, remSumL_append] at h0
      rw [hpend_sum pid] at h0
      have hA := hsum_active pid
      rw [remSumL_append, hrun2] at hA
      simp only [Option.toList_some] at hA
      rw [remSumL_singleton] at hA
      rw [hgantt3 pid, e_pend, e_ready, s1]
      by_cases hpid : p.pid = pid
      · simp [hpid] at hA ⊢
        simp only [hfix] at *
        omega
      · rw [if_neg hpid] at hA
        rw [if_neg hpid, if_neg hpid]
        simp only [hfix] at *
        omega
    have hno_wait3 : ∀ q, (q ∈ st3.pending ∨ q ∈ st3.ready_queue ∨
        q ∈ st.completed_processes ∨ q = p') → q.state ≠ ProcState.WAITING := by
      intro q hq
      rcases hq with hq | hq | hq | rfl
      · rw [e_pend, s1] at hq
        apply inowait
        have : q ∈ st.pending := by
          rw [← hsplit]
          exact List.mem_append.mpr (Or.inr hq)
        simp [allList, activeList, this]
      · rw [e_ready] at hq
        exact hact_state q (List.mem_append.mpr (Or.inl hq))
      · apply inowait
        simp [allList, activeList, hq]
      · exact e_state
    have hcomp3 : ∀ q ∈ st.completed_processes,
        q.completion_time = some (q.arrival_time + q.turnaround_time) ∧
        q.wait_time = q.turnaround_time - q.burst_time ∧
        q.remaining_time = 0 ∧ q.state = ProcState.TERMINATED ∧
        ∃ e ∈ st3.gantt_chart, e.pid = q.pid ∧
          e.end_ = q.arrival_time + q.turnaround_time := by
      intro q hq
      obtain ⟨f1, f2, f3, f4, e, he, fe⟩ := icomp q hq
      exact ⟨f1, f2, f3, f4, e, by rw [e_gantt, hg2]; exact List.mem_append.mpr (Or.inl he), fe⟩
    have hgantt_ok3 : ∀ e ∈ st3.gantt_chart,
        e.duration = e.end_ - e.start ∧ e.duration = 1 := by
      intro e he
      rw [e_gantt, hg2] at he
      rcases List.mem_append.mp he with he | he
      · exact igantt e he
      · simp at he
        subst he
        constructor <;> simp
    have hready_rem3 : ∀ q ∈ st3.ready_queue, 1 ≤ q.remaining_time := by
      intro q hq
      rw [e_ready] at hq
      exact hact_rem q (List.mem_append.mpr (Or.inl hq))
    have hpend_rem3 : ∀ q ∈ st3.pending, 1 ≤ q.remaining_time := by
      intro q hq
      rw [e_pend, s1] at hq
      apply ipend
      rw [← hsplit]
      exact List.mem_append.mpr (Or.inr hq)
    have hwait3 : st3.waiting_queue = [] := by
      rw [e_wait, s3, hw1]
      exact iwait
    have hgne3 : st3.gantt_chart ≠ [] := by
      rw [e_gantt]
      simp
    -- assemble, by cases on completion
    by_cases hfin : p.remaining_time = 1
    · rw [if_pos hfin] at e_if
      obtain ⟨f_comp, f_state, f_ct, f_tt, f_wt⟩ := e_if
      have hrem0 : p'.remaining_time = 0 := by omega
      have hInv3 : SimInv B { st3 with running_process := none } := by
        refine ⟨hwait3, ?_, hpend_rem3, hready_rem3, ?_, ?_, hgantt_ok3, ?_, ?_, ?_⟩
        · intro q hq
          apply hno_wait3
          simp only [allList, activeList] at hq
          rw [f_comp, s4, hc1] at hq
          simp only [Option.toList_none, List.append_nil, List.mem_append,
            List.mem_singleton, or_assoc] at hq
          rcases hq with hq | hq | hq | hq
          · exact Or.inl hq
          · exact Or.inr (Or.inl hq)
          · exact Or.inr (Or.inr (Or.inl hq))
          · exact Or.inr (Or.inr (Or.inr hq))
        · intro q hq
          simp at hq
        · intro q hq
          rw [f_comp, s4, hc1] at hq
          rcases List.mem_append.mp hq with hq | hq
          · exact hcomp3 q hq
          · simp at hq
            subst hq
            refine ⟨?_, ?_, hrem0, f_state, ?_⟩
            · rw [f_ct, f_tt, e_arr]
              have harith : p.arrival_time +
                  (st2.current_time + 1 - p.arrival_time) =
                  st2.current_time + 1 := by omega
              rw [harith]
            · rw [f_wt, e_burst]
            · refine
                ⟨{ pid := p.pid,
                   start := st2.current_time,
                   end_ := st2.current_time + 1,
                   duration := 1 }, ?_, ?_, ?_⟩
              · rw [e_gantt]
                simp
              · simp [e_pid]
              · simp [f_tt, e_arr]
        · intro pid
          have hb := hbal pid
          have hgs : ganttSum { st3 with running_process := none } pid =
              ganttSumL st3.gantt_chart pid := rfl
          simp only [allList, activeList]
          rw [hgs, f_comp, s4, hc1]
          simp only [Option.toList_none]
          rw [List.append_assoc, List.append_assoc]
          rw [remSumL_append, remSumL_append, remSumL_append, remSumL_append]
          rw [remSumL_singleton]
          have hze : (if p'.pid = pid then p'.remaining_time else 0) = 0 := by
            rw [hrem0]
            split <;> rfl
          rw [hze]
          have hnil : remSumL ([] : List Process) pid = 0 := rfl
          rw [hnil]
          omega
        · intro hg
          exact absurd hg hgne3
        · intro hs
          simp at hs
      refine tickRest_exec_inv pol B st2 p hrun2 ?_ ?_ ?_
      · intro pp hrp _
        rw [← hst3def] at hrp ⊢
        rw [e_run] at hrp
        have : pp = p' := (Option.some.inj hrp).symm
        subst this
        exact hInv3
      · intro pp hrp h0
        rw [← hst3def] at hrp
        rw [e_run] at hrp
        have : pp = p' := (Option.some.inj hrp).symm
        subst this
        exact absurd hrem0 h0
      · intro hnone
        rw [← hst3def, e_run] at hnone
        simp at hnone
    · rw [if_neg hfin] at e_if
      obtain ⟨f_comp, f_state⟩ := e_if
      have hrem1' : 1 ≤ p'.remaining_time := by omega
      have hInv3 : SimInv B st3 := by
        refine ⟨hwait3, ?_, hpend_rem3, hready_rem3, ?_, ?_, hgantt_ok3, ?_, ?_, ?_⟩
        · intro q hq
          apply hno_wait3
          simp only [allList, activeList] at hq
          rw [f_comp, s4, hc1, e_run] at hq
          simp only [Option.toList_some, List.mem_append, List.mem_singleton,
            or_assoc] at hq
          rcases hq with hq | hq | hq | hq
          · exact Or.inl hq
          · exact Or.inr (Or.inl hq)
          · exact Or.inr (Or.inr (Or.inr hq))
          · exact Or.inr (Or.inr (Or.inl hq))
        · intro q hq
          rw [e_run] at hq
          simp at hq
          subst hq
          exact hrem1'
        · intro q hq
          rw [f_comp, s4, hc1] at hq
          exact hcomp3 q hq
        · intro pid
          have hb := hbal pid
          simp only [allList, activeList]
          rw [f_comp, s4, hc1, e_run]
          simp only [Option.toList_some, List.append_assoc]
          simp only [remSumL_append]
          rw [remSumL_singleton]
          have hgs : ganttSum st3 pid = ganttSumL st3.gantt_chart pid := rfl
          rw [hgs]
          have hpe : (if p'.pid = pid then p'.remaining_time else 0) =
              (if p.pid = pid then p.remaining_time - 1 else 0) := by
            rw [e_pid, e_rem]
          rw [hpe]
          omega
        · intro hg
          exact absurd hg hgne3
        · intro _
          exact hgne3
      have hnz : ¬p'.remaining_time = 0 := by omega
      refine tickRest_exec_inv pol B st2 p hrun2 ?_ ?_ ?_
      · intro pp hrp h0
        rw [← hst3def] at hrp
        rw [e_run] at hrp
        have : pp = p' := (Option.some.inj hrp).symm
        subst this
        exact absurd h0 hnz
      · intro pp hrp _
        rw [← hst3def] at hrp ⊢
        rw [e_run] at hrp
        have : pp = p' := (Option.some.inj hrp).symm
        subst this
        exact hInv3
      · intro hnone
        rw [← hst3def, e_run] at hnone
        simp at hnone

theorem remSumL_perm {l1 l2 : List Process} (h : l1.Perm l2) (pid : Int) :
    remSumL l1 pid = remSumL l2 pid := by
  rw [remSumL_eq_remSumC, remSumL_eq_remSumC]
  exact remSumC_perm (h.map coreOf) pid

theorem remSumL_eq_burstSum (l : List Process) (pid : Int)
    (h : ∀ p ∈ l, p.remaining_time = p.burst_time) :
    remSumL l pid = burstSum l pid := by
  induction l with
  | nil => rfl
  | cons a as ih =>
    simp only [remSumL, burstSum, List.filter_cons] at ih ⊢
    have ha := h a (List.mem_cons_self a as)
    have ih' := ih (fun p hp => h p (List.mem_cons_of_mem a hp))
    split
    · simp only [List.map_cons, List.sum_cons]
      rw [ha]
      omega
    · exact ih'

theorem runLoop_inv (pol : Policy) (B : Int → Int) :
    ∀ (fuel : Nat) (st : SimState), SimInv B st →
      SimInv B (runLoop pol fuel st) := by
  intro fuel
  induction fuel with
  | zero => intro st h; exact h
  | succ n ih =>
    intro st h
    unfold runLoop
    split
    · exact ih _ (tick_inv pol B st h)
    · exact h

theorem initState_inv (pol : Policy) (tq : Int) (procs : List Process)
    (hwf : WFInput procs) :
    SimInv (burstSum procs) (initState pol tq procs) := by
  have hperm : (sortByKey arrivalPidLe procs).Perm procs :=
    sortByKey_perm arrivalPidLe procs
  have hp : (initState pol tq procs).pending = sortByKey arrivalPidLe procs := by
    simp [initState, add_explanation]
  refine ⟨?_, ?_, ?_, ?_, ?_, ?_, ?_, ?_, ?_, ?_⟩
  · simp [initState, add_explanation]
  · intro q hq
    simp only [allList, activeList, hp] at hq
    simp only [initState, add_explanation] at hq
    simp at hq
    have hq' := hperm.mem_iff.mp hq
    have := (hwf q hq').2.2.2
    rw [this]
    intro hcon
    cases hcon
  · intro q hq
    rw [hp] at hq
    have hq' := hperm.mem_iff.mp hq
    obtain ⟨hb, _, hr, _⟩ := hwf q hq'
    omega
  · intro q hq
    simp [initState, add_explanation] at hq
  · intro q hq
    simp [initState, add_explanation] at hq
  · intro q hq
    simp [initState, add_explanation] at hq
  · intro e he
    simp [initState, add_explanation] at he
  · intro pid
    have hg : ganttSum (initState pol tq procs) pid = 0 := by
      simp [ganttSum, ganttSumL, initState, add_explanation]
    rw [hg]
    have hall : allList (initState pol tq procs) = sortByKey arrivalPidLe procs := by
      simp [allList, activeList, initState, add_explanation]
    rw [hall]
    rw [remSumL_perm hperm pid]
    rw [remSumL_eq_burstSum procs pid (fun p hp => (hwf p hp).2.2.1)]
    omega
  · intro _ _
    simp [initState, add_explanation]
  · intro h
    simp [initState, add_explanation] at h

/-!  Projections of the closing explanation. -/

@[simp] theorem finalExplanation_completed (pol : Policy) (st : SimState) :
    (finalExplanation pol st).completed_processes = st.completed_processes := by
  cases pol <;> simp [finalExplanation]

@[simp] theorem finalExplanation_gantt (pol : Policy) (st : SimState) :
    (finalExplanation pol st).gantt_chart = st.gantt_chart := by
  cases pol <;> simp [finalExplanation]

@[simp] theorem finalExplanation_waiting (pol : Policy) (st : SimState) :
    (finalExplanation pol st).waiting_queue = st.waiting_queue := by
  cases pol <;> simp [finalExplanation]

@[simp] theorem finalExplanation_ready (pol : Policy) (st : SimState) :
    (finalExplanation pol st).ready_queue = st.ready_queue := by
  cases pol <;> simp [finalExplanation]

@[simp] theorem finalExplanation_running (pol : Policy) (st : SimState) :
    (finalExplanation pol st).running_process = st.running_process := by
  cases pol <;> simp [finalExplanation]

@[simp] theorem finalExplanation_pending (pol : Policy) (st : SimState) :
    (finalExplanation pol st).pending = st.pending := by
  cases pol <;> simp [finalExplanation]

@[simp] theorem finalExplanation_cs (pol : Policy) (st : SimState) :
    (finalExplanation pol st).context_switches = st.context_switches := by
  cases pol <;> simp [finalExplanation]

@[simp] theorem finalExplanation_time (pol : Policy) (st : SimState) :
    (finalExplanation pol st).current_time = st.current_time := by
  cases pol <;> simp [finalExplanation]

@[simp] theorem finalExplanation_state_changes (pol : Policy) (st : SimState) :
    (finalExplanation pol st).state_changes = st.state_changes := by
  cases pol <;> simp [finalExplanation]

/-- The Gantt entry appended by one `execute_process` call: its duration is
`min(duration, remaining_time before execution)` and its endpoints span
exactly that duration. -/
theorem execute_process_gantt (st : SimState) (p : Process) (d : Int)
    (h : st.running_process = some p) :
    (execute_process st d).gantt_chart = st.gantt_chart ++
      [{ pid := p.pid, start := st.current_time,
         end_ := st.current_time + min d p.remaining_time,
         duration := min d p.remaining_time }] := by
  by_cases hps : p.state = ProcState.RUNNING
  · by_cases h0 : p.remaining_time - min d p.remaining_time = 0 <;>
      simp [execute_process, complete_process, change_state, h, hps, h0]
  · by_cases hst : p.start_time = none <;>
      by_cases h0 : p.remaining_time - min d p.remaining_time = 0 <;>
      simp [execute_process, complete_process, change_state, h, hps, hst, h0]

/-!  Claim C7. -/

/-- C7: `calculate_metrics` returns the all-zero record whenever the
completed collection is empty (so its divisions by the process count and by
`current_time` are never reached), and running any policy on the empty
process list terminates immediately with zero completed processes, an empty
Gantt log, final time 0 and all-zero metrics. -/
theorem C7_empty_metrics (pol : Policy) (tq : Int) :
    (∀ st : SimState, st.completed_processes = [] →
      calculate_metrics st = zeroMetrics) ∧
    (runSimulation pol tq []).completed_processes = [] ∧
    (runSimulation pol tq []).gantt_chart = [] ∧
    (runSimulation pol tq []).current_time = 0 ∧
    calculate_metrics (runSimulation pol tq []) = zeroMetrics := by
  have hempty : ∀ st : SimState, st.completed_processes = [] →
      calculate_metrics st = zeroMetrics := by
    intro st h
    simp [calculate_metrics, h]
  have hcond : loopCond (initState pol tq []) = false := by
    simp [loopCond, initState, add_explanation, sortByKey]
  have hfuel : simFuel ([] : List Process) = 2 := by simp [simFuel]
  have hrun : runSimulation pol tq [] = finalExplanation pol (initState pol tq []) := by
    unfold runSimulation
    rw [hfuel]
    unfold runLoop
    rw [hcond]
    simp
  refine ⟨hempty, ?_, ?_, ?_, ?_⟩
  · rw [hrun, finalExplanation_completed]
    simp [initState, add_explanation]
  · rw [hrun, finalExplanation_gantt]
    simp [initState, add_explanation]
  · rw [hrun, finalExplanation_time]
    simp [initState, add_explanation]
  · apply hempty
    rw [hrun, finalExplanation_completed]
    simp [initState, add_explanation]

/-!  Claim C1. -/

/-- C1: at the end of a simulation run under any of the four policies,
every process in the completed collection carries
`completion_time = some c` with `turnaround_time = c - arrival_time`,
`wait_time = turnaround_time - burst_time`, `remaining_time = 0` and state
TERMINATED, and `c` is the end time of one of its Gantt entries - the value
of `current_time` at the tick where its remaining time reached zero. -/
theorem C1_completed_timing (pol : Policy) (tq : Int) (procs : List Process)
    (hwf : WFInput procs) :
    ∀ p ∈ (runSimulation pol tq procs).completed_processes,
      ∃ c : Int, p.completion_time = some c ∧
        p.turnaround_time = c - p.arrival_time ∧
        p.wait_time = p.turnaround_time - p.burst_time ∧
        p.remaining_time = 0 ∧ p.state = ProcState.TERMINATED ∧
        ∃ e ∈ (runSimulation pol tq procs).gantt_chart,
          e.pid = p.pid ∧ e.end_ = c := by
  intro p hp
  have hinv := runLoop_inv pol (burstSum procs) (simFuel procs)
    (initState pol tq procs) (initState_inv pol tq procs hwf)
  simp only [runSimulation, finalExplanation_completed] at hp
  obtain ⟨f1, f2, f3, f4, e, he, he1, he2⟩ := hinv.completed_fields p hp
  refine ⟨p.arrival_time + p.turnaround_time, f1, by omega, f2, f3, f4,
    e, ?_, he1, he2⟩
  simp only [runSimulation, finalExplanation_gantt]
  exact he

/-- Closed instance of the C1 claim theorem: FCFS on the single process
P1 (arrival 0, burst 2); the unique completed record has
completion time 2, turnaround 2, wait 0, remaining 0, TERMINATED. -/
theorem C1_completed_timing_witness :
    ∃ c : Int,
      ({ pid := 1, arrival_time := 0, burst_time := 2, priority := 0,
         memory_required := 0, state := ProcState.TERMINATED,
         remaining_time := 0, wait_time := 0, turnaround_time := 2,
         response_time := some 0, start_time := some 0,
         completion_time := some 2 } : Process).completion_time = some c ∧
      ({ pid := 1, arrival_time := 0, burst_time := 2, priority := 0,
         memory_required := 0, state := ProcState.TERMINATED,
         remaining_time := 0, wait_time := 0, turnaround_time := 2,
         response_time := some 0, start_time := some 0,
         completion_time := some 2 } : Process).turnaround_time = c - 0 ∧
      (0 : Int) = 2 - 2 ∧ (0 : Int) = 0 ∧
      ProcState.TERMINATED = ProcState.TERMINATED ∧
      ∃ e ∈ (runSimulation Policy.fcfs 4 [mkProcess 1 0 2 0]).gantt_chart,
        e.pid = 1 ∧ e.end_ = c := by
  have h := C1_completed_timing Policy.fcfs 4 [mkProcess 1 0 2 0]
    (by unfold WFInput; decide)
    { pid := 1, arrival_time := 0, burst_time := 2, priority := 0,
      memory_required := 0, state := ProcState.TERMINATED,
      remaining_time := 0, wait_time := 0, turnaround_time := 2,
      response_time := some 0, start_time := some 0,
      completion_time := some 2 }
    (by decide)
  exact h

/-!  Claim C10. -/

/-- C10: in every state the loop reaches (any fuel bound), under every
policy and well-formed input, the waiting queue is empty and no process the
run knows about is in state WAITING; likewise at the end of the full run.
The effective lifecycle is NEW, READY, RUNNING, TERMINATED. -/
theorem C10_no_waiting (pol : Policy) (tq : Int) (procs : List Process)
    (hwf : WFInput procs) :
    (∀ fuel : Nat,
      (runLoop pol fuel (initState pol tq procs)).waiting_queue = [] ∧
      ∀ p ∈ allList (runLoop pol fuel (initState pol tq procs)),
        p.state ≠ ProcState.WAITING) ∧
    (runSimulation pol tq procs).waiting_queue = [] := by
  constructor
  · intro fuel
    have hinv := runLoop_inv pol (burstSum procs) fuel
      (initState pol tq procs) (initState_inv pol tq procs hwf)
    exact ⟨hinv.waiting_nil, hinv.no_waiting⟩
  · have hinv := runLoop_inv pol (burstSum procs) (simFuel procs)
      (initState pol tq procs) (initState_inv pol tq procs hwf)
    simp only [runSimulation, finalExplanation_waiting]
    exact hinv.waiting_nil

/-- Closed instance of the C10 claim theorem at Round Robin, quantum 4, on
P1 (arrival 0, burst 6). -/
theorem C10_no_waiting_witness :
    (∀ fuel : Nat,
      (runLoop Policy.round_robin fuel
        (initState Policy.round_robin 4 [mkProcess 1 0 6 0])).waiting_queue = [] ∧
      ∀ p ∈ allList (runLoop Policy.round_robin fuel
          (initState Policy.round_robin 4 [mkProcess 1 0 6 0])),
        p.state ≠ ProcState.WAITING) ∧
    (runSimulation Policy.round_robin 4 [mkProcess 1 0 6 0]).waiting_queue = [] :=
  C10_no_waiting Policy.round_robin 4 [mkProcess 1 0 6 0] (by unfold WFInput; decide)

/-!  Claim C4. -/

/-- C4 counterexample: FCFS on the single process P1 (arrival 0, burst 2)
runs it as one uninterrupted two-tick span, yet the Gantt log holds two
entries - one per executed tick - not one entry per uninterrupted span. -/
theorem C4_counterexample :
    (runSimulation Policy.fcfs 4 [mkProcess 1 0 2 0]).gantt_chart =
      [({ pid := 1, start := 0, end_ := 1, duration := 1 } : GanttEntry),
       ({ pid := 1, start := 1, end_ := 2, duration := 1 } : GanttEntry)] ∧
    (runSimulation Policy.fcfs 4 [mkProcess 1 0 2 0]).gantt_chart.length = 2 := by
  exact ⟨by decide, by decide⟩

/-- C4 (amended): every Gantt entry of every reachable state satisfies
`duration = end - start`, and - because the four loops always request
duration 1 - every entry covers exactly one tick: the log holds one entry
per executed tick, not one per uninterrupted span. In general a single
`execute_process` call appends exactly one entry whose duration is
`min(requested duration, remaining_time before execution)` and whose
endpoints span it. -/
theorem C4_gantt_entries (pol : Policy) (tq : Int) (procs : List Process)
    (hwf : WFInput procs) (fuel : Nat) :
    (∀ e ∈ (runLoop pol fuel (initState pol tq procs)).gantt_chart,
      e.duration = e.end_ - e.start ∧ e.duration = 1) ∧
    (∀ e ∈ (runSimulation pol tq procs).gantt_chart,
      e.duration = e.end_ - e.start ∧ e.duration = 1) ∧
    (∀ (st : SimState) (p : Process) (d : Int), st.running_process = some p →
      (execute_process st d).gantt_chart = st.gantt_chart ++
        [{ pid := p.pid, start := st.current_time,
           end_ := st.current_time + min d p.remaining_time,
           duration := min d p.remaining_time }]) := by
  refine ⟨?_, ?_, fun st p d h => execute_process_gantt st p d h⟩
  · exact (runLoop_inv pol (burstSum procs) fuel (initState pol tq procs)
      (initState_inv pol tq procs hwf)).gantt_ok
  · intro e he
    simp only [runSimulation, finalExplanation_gantt] at he
    exact (runLoop_inv pol (burstSum procs) (simFuel procs)
      (initState pol tq procs) (initState_inv pol tq procs hwf)).gantt_ok e he

/-- Closed instance of the C4 claim theorem at FCFS on P1 (arrival 0,
burst 2), fuel 5. -/
theorem C4_gantt_entries_witness :
    (∀ e ∈ (runLoop Policy.fcfs 5
        (initState Policy.fcfs 4 [mkProcess 1 0 2 0])).gantt_chart,
      e.duration = e.end_ - e.start ∧ e.duration = 1) ∧
    (∀ e ∈ (runSimulation Policy.fcfs 4 [mkProcess 1 0 2 0]).gantt_chart,
      e.duration = e.end_ - e.start ∧ e.duration = 1) ∧
    (∀ (st : SimState) (p : Process) (d : Int), st.running_process = some p →
      (execute_process st d).gantt_chart = st.gantt_chart ++
        [{ pid := p.pid, start := st.current_time,
           end_ := st.current_time + min d p.remaining_time,
           duration := min d p.remaining_time }]) :=
  C4_gantt_entries Policy.fcfs 4 [mkProcess 1 0 2 0] (by unfold WFInput; decide) 5

/-!  Claim C5. -/

/-- C5 counterexample: Round Robin, quantum 4, on the single process P1
(arrival 0, burst 6). Only P1 ever holds the CPU (every Gantt entry and the
only completed process carry pid 1), so the quantum expiry at t=4
re-selects the very process that was already running - yet a
ContextSwitchEvent is recorded (with `from_pid = none`, because the expiry
path clears `running_process` before the dispatch logs the switch). -/
theorem C5_counterexample :
    (runSimulation Policy.round_robin 4 [mkProcess 1 0 6 0]).context_switches.length
        = 1 ∧
    (∀ e ∈ (runSimulation Policy.round_robin 4 [mkProcess 1 0 6 0]).context_switches,
      e.to_pid = 1 ∧ e.from_pid = none) ∧
    (∀ e ∈ (runSimulation Policy.round_robin 4 [mkProcess 1 0 6 0]).gantt_chart,
      e.pid = 1) ∧
    ((runSimulation Policy.round_robin 4 [mkProcess 1 0 6 0]).completed_processes.map
      Process.pid) = [1] := by
  exact ⟨by decide, by decide, by decide, by decide⟩

/-- C5 (amended): a context switch is never recorded while no Gantt entry
and no completed process exists, so the very first dispatch of a run is not
logged; once at least one Gantt entry or completed process exists, every
dispatch of a ready-queue head onto a free CPU - in all four schedulers -
records exactly one ContextSwitchEvent with `from_pid = none` and `to_pid`
the dispatched pid, even when (after a quantum expiry) the dispatched
process is the very one that was just running, because the expiry clears
`running_process` before the dispatch logs the switch; and with no prior
work such a dispatch records nothing. -/
theorem C5_context_switches (pol : Policy) (tq : Int) (procs : List Process)
    (hwf : WFInput procs) (fuel : Nat) (s : SimState) (next : Process)
    (rest : List Process) (hsrun : s.running_process = none)
    (hsready : s.ready_queue = next :: rest) :
    ((runLoop pol fuel (initState pol tq procs)).gantt_chart = [] →
      (runLoop pol fuel (initState pol tq procs)).completed_processes = [] →
      (runLoop pol fuel (initState pol tq procs)).context_switches = []) ∧
    (0 < s.completed_processes.length ∨ 0 < s.gantt_chart.length →
      (fcfsCore s).context_switches = s.context_switches ++
        [{ time := s.current_time, from_pid := none, to_pid := next.pid,
           reason := "FCFS scheduling", steps := contextSwitchSteps }] ∧
      (∀ pre : Bool, (sjfDispatch pre s).context_switches = s.context_switches ++
        [{ time := s.current_time, from_pid := none, to_pid := next.pid,
           reason := "SJF scheduling", steps := contextSwitchSteps }]) ∧
      (priorityDispatch s).context_switches = s.context_switches ++
        [{ time := s.current_time, from_pid := none, to_pid := next.pid,
           reason := "Priority scheduling", steps := contextSwitchSteps }] ∧
      (rrDispatch s).context_switches = s.context_switches ++
        [{ time := s.current_time, from_pid := none, to_pid := next.pid,
           reason := "Round Robin scheduling", steps := contextSwitchSteps }]) ∧
    (s.completed_processes = [] → s.gantt_chart = [] →
      (fcfsCore s).context_switches = s.context_switches ∧
      (∀ pre : Bool, (sjfDispatch pre s).context_switches = s.context_switches) ∧
      (priorityDispatch s).context_switches = s.context_switches ∧
      (rrDispatch s).context_switches = s.context_switches) ∧
    (runSimulation Policy.round_robin 4 [mkProcess 1 0 6 0]).context_switches =
      [({ time := 4, from_pid := none, to_pid := 1,
          reason := "Round Robin scheduling",
          steps := contextSwitchSteps } : ContextSwitchEvent)] := by
  refine ⟨?_, ?_, ?_, by decide⟩
  · exact (runLoop_inv pol (burstSum procs) fuel (initState pol tq procs)
      (initState_inv pol tq procs hwf)).cs_first
  · intro hb
    refine ⟨?_, fun pre => ?_, ?_, ?_⟩
    · unfold fcfsCore
      simp only [hsrun, hsready]
      split
      · simp [context_switch, add_timeline_event]
      · rename_i hguard
        exfalso
        apply hguard
        simpa using hb
    · unfold sjfDispatch
      simp only [hsrun, hsready]
      split
      · simp [context_switch, add_timeline_event]
      · rename_i hguard
        exfalso
        apply hguard
        simpa using hb
    · unfold priorityDispatch
      simp only [hsrun, hsready]
      split
      · simp [context_switch, add_timeline_event]
      · rename_i hguard
        exfalso
        apply hguard
        simpa using hb
    · unfold rrDispatch
      simp only [hsrun, hsready]
      split
      · simp [context_switch, add_timeline_event]
      · rename_i hguard
        exfalso
        apply hguard
        simpa using hb
  · intro hc hg
    refine ⟨?_, fun pre => ?_, ?_, ?_⟩
    · unfold fcfsCore
      simp only [hsrun, hsready]
      split
      · rename_i hguard
        exfalso
        simp [hc, hg] at hguard
      · simp
    · unfold sjfDispatch
      simp only [hsrun, hsready]
      split
      · rename_i hguard
        exfalso
        simp [hc, hg] at hguard
      · simp
    · unfold priorityDispatch
      simp only [hsrun, hsready]
      split
      · rename_i hguard
        exfalso
        simp [hc, hg] at hguard
      · simp
    · unfold rrDispatch
      simp only [hsrun, hsready]
      split
      · rename_i hguard
        exfalso
        simp [hc, hg] at hguard
      · simp

/-- Closed instance of the C5 claim theorem: the first-dispatch half at
Round Robin, quantum 4, on P1 (arrival 0, burst 6), fuel 3, and the
dispatch half at the hand-built post-expiry state, whose queue head is the
very process that was just running. -/
theorem C5_context_switches_witness :
    ((runLoop Policy.round_robin 3
        (initState Policy.round_robin 4 [mkProcess 1 0 6 0])).gantt_chart = [] →
      (runLoop Policy.round_robin 3
        (initState Policy.round_robin 4 [mkProcess 1 0 6 0])).completed_processes
          = [] →
      (runLoop Policy.round_robin 3
        (initState Policy.round_robin 4 [mkProcess 1 0 6 0])).context_switches
          = []) ∧
    (0 < rrDispatchDemo.completed_processes.length ∨
        0 < rrDispatchDemo.gantt_chart.length →
      (fcfsCore rrDispatchDemo).context_switches =
        rrDispatchDemo.context_switches ++
        [{ time := rrDispatchDemo.current_time, from_pid := none,
           to_pid := rrP1Ready.pid,
           reason := "FCFS scheduling", steps := contextSwitchSteps }] ∧
      (∀ pre : Bool, (sjfDispatch pre rrDispatchDemo).context_switches =
        rrDispatchDemo.context_switches ++
        [{ time := rrDispatchDemo.current_time, from_pid := none,
           to_pid := rrP1Ready.pid,
           reason := "SJF scheduling", steps := contextSwitchSteps }]) ∧
      (priorityDispatch rrDispatchDemo).context_switches =
        rrDispatchDemo.context_switches ++
        [{ time := rrDispatchDemo.current_time, from_pid := none,
           to_pid := rrP1Ready.pid,
           reason := "Priority scheduling", steps := contextSwitchSteps }] ∧
      (rrDispatch rrDispatchDemo).context_switches =
        rrDispatchDemo.context_switches ++
        [{ time := rrDispatchDemo.current_time, from_pid := none,
           to_pid := rrP1Ready.pid,
           reason := "Round Robin scheduling", steps := contextSwitchSteps }]) ∧
    (rrDispatchDemo.completed_processes = [] → rrDispatchDemo.gantt_chart = [] →
      (fcfsCore rrDispatchDemo).context_switches =
        rrDispatchDemo.context_switches ∧
      (∀ pre : Bool, (sjfDispatch pre rrDispatchDemo).context_switches =
        rrDispatchDemo.context_switches) ∧
      (priorityDispatch rrDispatchDemo).context_switches =
        rrDispatchDemo.context_switches ∧
      (rrDispatch rrDispatchDemo).context_switches =
        rrDispatchDemo.context_switches) ∧
    (runSimulation Policy.round_robin 4 [mkProcess 1 0 6 0]).context_switches =
      [({ time := 4, from_pid := none, to_pid := 1,
          reason := "Round Robin scheduling",
          steps := contextSwitchSteps } : ContextSwitchEvent)] :=
  C5_context_switches Policy.round_robin 4 [mkProcess 1 0 6 0]
    (by unfold WFInput; decide) 3 rrDispatchDemo rrP1Ready []
    rfl rfl

/-!  Claim C3. -/

/-- C3 counterexample: in the Round Robin run (quantum 4) on P1 (arrival 0,
burst 6), the quantum-expiry transition is recorded with reason
"Time quantum expired" - capitalised - and no state change of the run
carries the reason "time quantum expired". -/
theorem C3_counterexample :
    ((runSimulation Policy.round_robin 4 [mkProcess 1 0 6 0]).state_changes.map
        (fun r => r.reason)) =
      ["Process P1 arrived and added to ready queue", "Selected by scheduler",
       "Time quantum expired", "Selected by scheduler",
       "Process completed execution"] ∧
    ∀ r ∈ (runSimulation Policy.round_robin 4 [mkProcess 1 0 6 0]).state_changes,
      r.reason ≠ "time quantum expired" := by
  exact ⟨by decide, by decide⟩

/-- C3 (amended): when the quantum of a still-unfinished running process is
exhausted, `RoundRobinScheduler.schedule` records the RUNNING→READY
transition with reason "Time quantum expired" (capital T), appends the
process to the TAIL of the ready queue and frees the CPU; the subsequent
dispatch pops the queue head and always grants it the full fresh
`time_quantum`, irrespective of its remaining time. -/
theorem C3_quantum_expiry (st s : SimState) (running next : Process)
    (rest : List Process)
    (hrun : st.running_process = some running)
    (hq : st.current_quantum_remaining ≤ 0)
    (hrem : 0 < running.remaining_time)
    (hsrun : s.running_process = none)
    (hsready : s.ready_queue = next :: rest) :
    (rrExpiry st).ready_queue =
      st.ready_queue ++ [{ running with state := ProcState.READY }] ∧
    (rrExpiry st).running_process = none ∧
    (rrExpiry st).state_changes = st.state_changes ++
      [{ time := st.current_time, pid := running.pid,
         from_state := running.state, to_state := ProcState.READY,
         reason := "Time quantum expired" }] ∧
    (rrDispatch s).running_process = some next ∧
    (rrDispatch s).ready_queue = rest ∧
    (rrDispatch s).current_quantum_remaining = s.time_quantum := by
  refine ⟨?_, ?_, ?_, ?_, ?_, ?_⟩
  · simp [rrExpiry, hrun, hq, hrem, change_state]
  · simp [rrExpiry, hrun, hq, hrem, change_state]
  · simp [rrExpiry, hrun, hq, hrem, change_state, record_state_change,
      add_explanation]
  · simp only [rrDispatch, hsrun, hsready]
    split <;> simp
  · simp only [rrDispatch, hsrun, hsready]
    split <;> simp
  · simp only [rrDispatch, hsrun, hsready]
    split <;> simp

/-- Closed instance of the C3 claim theorem at the hand-built Round Robin
walkthrough states. -/
theorem C3_quantum_expiry_witness :
    (rrExpiry rrExpiryDemo).ready_queue =
      rrExpiryDemo.ready_queue ++ [{ rrP1Running with state := ProcState.READY }] ∧
    (rrExpiry rrExpiryDemo).running_process = none ∧
    (rrExpiry rrExpiryDemo).state_changes = rrExpiryDemo.state_changes ++
      [{ time := rrExpiryDemo.current_time, pid := rrP1Running.pid,
         from_state := rrP1Running.state, to_state := ProcState.READY,
         reason := "Time quantum expired" }] ∧
    (rrDispatch rrDispatchDemo).running_process = some rrP1Ready ∧
    (rrDispatch rrDispatchDemo).ready_queue = [] ∧
    (rrDispatch rrDispatchDemo).current_quantum_remaining =
      rrDispatchDemo.time_quantum :=
  C3_quantum_expiry rrExpiryDemo rrDispatchDemo rrP1Running rrP1Ready []
    rfl (by decide) (by decide) rfl rfl

/-!  Claim C2. -/

/-- C2 counterexample: in the SRTF run on P1 (arrival 0, burst 5) and P2
(arrival 1, burst 2), the preemption at t=1 records the RUNNING→READY
transition of P1 with reason "Preempted by shorter job" - capitalised - and
no state change of the run carries the reason "preempted by shorter job". -/
theorem C2_counterexample :
    (∃ r ∈ (runSimulation (Policy.sjf true) 4
        [mkProcess 1 0 5 0, mkProcess 2 1 2 0]).state_changes,
      r.pid = 1 ∧ r.time = 1 ∧ r.from_state = ProcState.RUNNING ∧
      r.to_state = ProcState.READY ∧ r.reason = "Preempted by shorter job") ∧
    ∀ r ∈ (runSimulation (Policy.sjf true) 4
        [mkProcess 1 0 5 0, mkProcess 2 1 2 0]).state_changes,
      r.reason ≠ "preempted by shorter job" := by
  exact ⟨by decide, by decide⟩

/-- C2 (amended): every tick first admits the arrival batch inside
`schedule` and only then executes (`tick = tickRest ∘ schedule`, so the
preemption check is made once per tick, between admissions and execution);
in SRTF mode, when a process is running and the sorted queue head has
strictly smaller remaining time, `SJFScheduler.schedule` moves the running
process back to READY with reason "Preempted by shorter job" (capital P),
logs one context switch with reason "Preemption (shorter job arrived)", and
makes the (remaining_time, pid)-minimal process of queue-plus-preempted
RUNNING within that same call; when the queue head's remaining time is not
strictly smaller, the state is unchanged. -/
theorem C2_srtf_preemption (st : SimState) (running shortest : Process)
    (rest0 : List Process)
    (hrun : st.running_process = some running)
    (hready : st.ready_queue = shortest :: rest0) :
    (∀ (pol : Policy) (s : SimState), tick pol s = tickRest pol (schedule pol
        { s with pending := (s.pending.dropWhile
            (fun p => decide (p.arrival_time ≤ s.current_time))) }
        (s.pending.takeWhile (fun p => decide (p.arrival_time ≤ s.current_time))))) ∧
    (shortest.remaining_time < running.remaining_time →
      ∃ next rest,
        sortByKey sjfKeyLe
            ((shortest :: rest0) ++ [{ running with state := ProcState.READY }]) =
          next :: rest ∧
        (sjfCore true st).running_process = some next ∧
        (sjfCore true st).ready_queue = rest ∧
        (∀ q ∈ (shortest :: rest0) ++ [{ running with state := ProcState.READY }],
          sjfKeyLe next q = true) ∧
        (sjfCore true st).state_changes = st.state_changes ++
          [{ time := st.current_time, pid := running.pid,
             from_state := running.state, to_state := ProcState.READY,
             reason := "Preempted by shorter job" }] ∧
        (sjfCore true st).context_switches = st.context_switches ++
          [{ time := st.current_time, from_pid := some running.pid,
             to_pid := next.pid, reason := "Preemption (shorter job arrived)",
             steps := contextSwitchSteps }]) ∧
    (¬ shortest.remaining_time < running.remaining_time →
      sjfCore true st = st) := by
  refine ⟨fun pol s => rfl, ?_, ?_⟩
  · intro hlt
    unfold sjfCore
    simp only [hrun, hready]
    rw [if_pos hlt]
    simp only [change_state, change_state_fst, change_state_snd]
    simp only [record_state_change_ready_queue, add_explanation_ready_queue,
      hready]
    rcases hs : sortByKey sjfKeyLe
        ((shortest :: rest0) ++ [{ running with state := ProcState.READY }])
      with _ | ⟨next, rest⟩
    · exfalso
      have hlen := (sortByKey_perm sjfKeyLe
        ((shortest :: rest0) ++ [{ running with state := ProcState.READY }])).length_eq
      rw [hs] at hlen
      simp at hlen
    · simp only [hs]
      refine ⟨next, rest, rfl, by simp, by simp,
        sortByKey_head_le sjfKeyLe sjfKeyLe_total sjfKeyLe_trans _ next rest hs,
        ?_, ?_⟩
      · simp [record_state_change, add_explanation]
      · simp [context_switch, add_explanation, add_timeline_event,
          record_state_change]
  · intro hlt
    unfold sjfCore
    simp only [hrun, hready]
    rw [if_neg hlt]
    simp [sjfDispatch, hrun]

/-- Closed instance of the C2 claim theorem at the hand-built SRTF
walkthrough state. -/
theorem C2_srtf_preemption_witness :
    (∀ (pol : Policy) (s : SimState), tick pol s = tickRest pol (schedule pol
        { s with pending := (s.pending.dropWhile
            (fun p => decide (p.arrival_time ≤ s.current_time))) }
        (s.pending.takeWhile (fun p => decide (p.arrival_time ≤ s.current_time))))) ∧
    (srtfP2Ready.remaining_time < srtfP1Running.remaining_time →
      ∃ next rest,
        sortByKey sjfKeyLe
            ((srtfP2Ready :: []) ++ [{ srtfP1Running with state := ProcState.READY }]) =
          next :: rest ∧
        (sjfCore true srtfDemo).running_process = some next ∧
        (sjfCore true srtfDemo).ready_queue = rest ∧
        (∀ q ∈ (srtfP2Ready :: []) ++ [{ srtfP1Running with state := ProcState.READY }],
          sjfKeyLe next q = true) ∧
        (sjfCore true srtfDemo).state_changes = srtfDemo.state_changes ++
          [{ time := srtfDemo.current_time, pid := srtfP1Running.pid,
             from_state := srtfP1Running.state, to_state := ProcState.READY,
             reason := "Preempted by shorter job" }] ∧
        (sjfCore true srtfDemo).context_switches = srtfDemo.context_switches ++
          [{ time := srtfDemo.current_time, from_pid := some srtfP1Running.pid,
             to_pid := next.pid, reason := "Preemption (shorter job arrived)",
             steps := contextSwitchSteps }]) ∧
    (¬ srtfP2Ready.remaining_time < srtfP1Running.remaining_time →
      sjfCore true srtfDemo = srtfDemo) :=
  C2_srtf_preemption srtfDemo srtfP1Running srtfP2Ready [] rfl rfl

/-!  Termination machinery: the loop measure decreases at every guarded
iteration, and one Gantt entry is appended per executed tick. -/

theorem remNatSum_eq (st : SimState) (pend ready run : List Process)
    (hp : st.pending = pend) (hr : st.ready_queue = ready)
    (hrn : st.running_process.toList = run) :
    remNatSum st =
      (pend.map (fun r => r.remaining_time.toNat)).sum +
      (ready.map (fun r => r.remaining_time.toNat)).sum +
      (run.map (fun r => r.remaining_time.toNat)).sum := by
  simp only [remNatSum, activeList, hp, hr, hrn, List.map_append, List.sum_append]

theorem toNatSum_of_corePerm {l1 l2 : List Process}
    (h : (l1.map coreOf).Perm (l2.map coreOf)) :
    (l1.map (fun r => r.remaining_time.toNat)).sum =
      (l2.map (fun r => r.remaining_time.toNat)).sum := by
  have h2 := (h.map (fun c => c.2.1.toNat)).sum_eq
  simpa [List.map_map, Function.comp, coreOf] using h2

theorem tickRest_exec_measure (pol : Policy) (s : SimState) (p : Process)
    (hrun : s.running_process = some p) (hrem : 1 ≤ p.remaining_time) :
    remNatSum (tickRest pol s) + 1 = remNatSum s ∧
    (tickRest pol s).pending = s.pending ∧
    (tickRest pol s).gantt_chart.length = s.gantt_chart.length + 1 := by
  obtain ⟨p', e_run, e_pid, e_arr, e_burst, e_rem, e_state, e_time, e_pend,
    e_ready, e_wait, e_gantt, e_cs, e_tq, e_idle, e_if⟩ :=
    execute_spec s p hrun hrem
  have hsum_s : remNatSum s =
      (s.pending.map (fun r => r.remaining_time.toNat)).sum +
      (s.ready_queue.map (fun r => r.remaining_time.toNat)).sum +
      ([p].map (fun r => r.remaining_time.toNat)).sum :=
    remNatSum_eq s s.pending s.ready_queue [p] rfl rfl (by rw [hrun]; rfl)
  have hglen : (execute_process s 1).gantt_chart.length =
      s.gantt_chart.length + 1 := by
    rw [e_gantt]
    simp
  unfold tickRest
  rw [hrun]
  cases pol <;>
    (rcases hrp : (execute_process s 1).running_process with _ | pp
     · rw [e_run] at hrp
       cases hrp
     · simp only [hrp]
       rw [e_run] at hrp
       injection hrp with hpp
       subst hpp
       by_cases h0 : p'.remaining_time = 0
       · rw [if_pos h0]
         refine ⟨?_, e_pend, hglen⟩
         simp only [remNatSum, activeList, e_pend, e_ready, hrun,
           Option.toList_some, Option.toList_none, List.map_append,
           List.sum_append, List.map_cons, List.map_nil, List.sum_cons,
           List.sum_nil]
         omega
       · rw [if_neg h0]
         refine ⟨?_, e_pend, hglen⟩
         simp only [remNatSum, activeList, e_pend, e_ready, e_run, hrun,
           Option.toList_some, Option.toList_none, List.map_append,
           List.sum_append, List.map_cons, List.map_nil, List.sum_cons,
           List.sum_nil]
         omega)

theorem tickRest_idle_measure (pol : Policy) (s : SimState) (nxt : Process)
    (l : List Process) (hrun : s.running_process = none)
    (hready : s.ready_queue = []) (hpend : s.pending = nxt :: l)
    (ht : s.current_time < nxt.arrival_time) :
    remNatSum (tickRest pol s) = remNatSum s ∧
    (tickRest pol s).pending = s.pending ∧
    waitFlag (tickRest pol s) = false ∧
    waitFlag s = true ∧
    (tickRest pol s).gantt_chart = s.gantt_chart := by
  have hdur : (0 : Int) < nxt.arrival_time - s.current_time := by omega
  unfold tickRest
  rw [hrun]
  simp only [hpend]
  rw [if_pos hdur]
  refine ⟨?_, ?_, ?_, ?_, ?_⟩
  · simp [remNatSum, activeList, hrun]
  · simp [hpend]
  · simp [waitFlag, hpend]
  · simp [waitFlag, hpend, hrun, hready, ht]
  · simp

theorem tick_progress (pol : Policy) (B : Int → Int) (st : SimState)
    (hinv : SimInv B st) (hcond : loopCond st = true) :
    loopMeasure (tick pol st) < loopMeasure st ∧
    (tick pol st).gantt_chart.length + remNatSum (tick pol st) =
      st.gantt_chart.length + remNatSum st := by
  obtain ⟨iwait, inowait, ipend, iready, irun, icomp, igantt, isums, icsf, irg⟩ := hinv
  have hT : tick pol st = tickRest pol
      (schedule pol
        { st with pending :=
            st.pending.dropWhile (fun p => decide (p.arrival_time ≤ st.current_time)) }
        (st.pending.takeWhile (fun p => decide (p.arrival_time ≤ st.current_time)))) := rfl
  rw [hT]
  set arrivals :=
    st.pending.takeWhile (fun p => decide (p.arrival_time ≤ st.current_time)) with harr
  set st1 : SimState :=
    { st with pending :=
        st.pending.dropWhile (fun p => decide (p.arrival_time ≤ st.current_time)) } with hst1def
  have hsplit : arrivals ++ st1.pending = st.pending := by
    rw [harr, hst1def]
    exact List.takeWhile_append_dropWhile
      (p := fun p => decide (p.arrival_time ≤ st.current_time)) (l := st.pending)
  have hr1 : st1.ready_queue = st.ready_queue := by rw [hst1def]
  have hrn1 : st1.running_process = st.running_process := by rw [hst1def]
  have ht1 : st1.current_time = st.current_time := by rw [hst1def]
  have hg1 : st1.gantt_chart = st.gantt_chart := by rw [hst1def]
  clear_value st1
  obtain ⟨s1, s2, s3, s4, s5, s6, s7, sperm, swait, scs, sdisp⟩ :=
    schedule_shape pol st1 arrivals
  set st2 := schedule pol st1 arrivals with hst2def
  clear_value st2
  have harrmem : ∀ q ∈ arrivals, q ∈ st.pending := by
    intro q hq
    rw [← hsplit]
    exact List.mem_append.mpr (Or.inl hq)
  have hact_rem : ∀ q ∈ st2.ready_queue ++ st2.running_process.toList,
      1 ≤ q.remaining_time := by
    intro q hq
    have hc : coreOf q ∈ (st2.ready_queue ++ st2.running_process.toList).map coreOf :=
      List.mem_map_of_mem coreOf hq
    have hc2 := sperm.mem_iff.mp hc
    obtain ⟨q', hq', hcq⟩ := List.mem_map.mp hc2
    have hq'rem : 1 ≤ q'.remaining_time := by
      rcases List.mem_append.mp hq' with hq'' | hq''
      · rcases List.mem_append.mp hq'' with h3 | h3
        · rw [hr1] at h3
          exact iready q' h3
        · rw [hrn1] at h3
          rcases hro : st.running_process with _ | rp
          · rw [hro] at h3
            simp at h3
          · rw [hro] at h3
            simp at h3
            subst h3
            exact irun q' hro
      · exact ipend q' (harrmem q' hq'')
    have heq : q'.remaining_time = q.remaining_time := by
      simp [coreOf] at hcq
      exact hcq.2.1
    omega
  have hsum2 : remNatSum st2 = remNatSum st := by
    have hA := toNatSum_of_corePerm sperm
    simp only [List.map_append, List.sum_append] at hA
    rw [hr1, hrn1] at hA
    have hB := remNatSum_eq st2 st2.pending st2.ready_queue
      st2.running_process.toList rfl rfl rfl
    have hC := remNatSum_eq st st.pending st.ready_queue
      st.running_process.toList rfl rfl rfl
    have hD : ((arrivals ++ st1.pending).map
        (fun r => r.remaining_time.toNat)).sum =
        (st.pending.map (fun r => r.remaining_time.toNat)).sum := by
      rw [hsplit]
    simp only [List.map_append, List.sum_append] at hD
    rw [hB, hC, s1]
    omega
  have hlen : arrivals.length + st1.pending.length = st.pending.length := by
    rw [← hsplit]
    simp
  rcases hrun2 : st2.running_process with _ | p
  · obtain ⟨hr2ready, hr1run, hr1ready, harrnil⟩ := sdisp hrun2
    have hrunSt : st.running_process = none := by rw [← hrn1]; exact hr1run
    have hreadySt : st.ready_queue = [] := by rw [← hr1]; exact hr1ready
    have hpend1 : st1.pending = st.pending := by
      rw [harrnil] at hsplit
      simpa using hsplit
    rcases hpendSt : st.pending with _ | ⟨nxt, l⟩
    · exfalso
      unfold loopCond at hcond
      rw [hpendSt, hrunSt, hreadySt] at hcond
      simp at hcond
    · have htw : st.pending.takeWhile
          (fun p => decide (p.arrival_time ≤ st.current_time)) = [] := by
        rw [← harr]
        exact harrnil
      rw [hpendSt, List.takeWhile_cons] at htw
      by_cases hle : nxt.arrival_time ≤ st.current_time
      · rw [if_pos (by simpa using hle)] at htw
        cases htw
      · have hlt : st.current_time < nxt.arrival_time := by omega
        obtain ⟨im1, im2, im3, im4, im5⟩ := tickRest_idle_measure pol st2 nxt l
          hrun2 hr2ready (by rw [s1, hpend1, hpendSt]) (by rw [s2, ht1]; exact hlt)
        constructor
        · unfold loopMeasure
          rw [im1, im2, im3, hsum2, s1, hpend1]
          have hwf : waitFlag st = true := by
            simp [waitFlag, hpendSt, hrunSt, hreadySt, hlt]
          rw [hwf]
          simp
        · rw [im5, im1, hsum2, s5, hg1]
  · have hrem2 : 1 ≤ p.remaining_time :=
      hact_rem p (List.mem_append.mpr (Or.inr (by rw [hrun2]; simp)))
    obtain ⟨em1, em2, em3⟩ := tickRest_exec_measure pol st2 p hrun2 hrem2
    constructor
    · unfold loopMeasure
      rw [em2, s1]
      have hfT : (if waitFlag (tickRest pol st2) then 1 else 0) ≤ 1 := by
        split <;> omega
      omega
    · rw [em3, s5, hg1]
      omega

theorem runLoop_halts (pol : Policy) (B : Int → Int) :
    ∀ (n : Nat) (st : SimState), SimInv B st → loopMeasure st < n →
      loopCond (runLoop pol n st) = false := by
  intro n
  induction n with
  | zero =>
    intro st _ h
    omega
  | succ k ih =>
    intro st hinv hlt
    unfold runLoop
    cases hc : loopCond st
    · rw [if_neg (by simp [hc])]
      exact hc
    · rw [if_pos rfl]
      refine ih (tick pol st) (tick_inv pol B st hinv) ?_
      have := (tick_progress pol B st hinv hc).1
      omega

theorem runLoop_count (pol : Policy) (B : Int → Int) :
    ∀ (n : Nat) (st : SimState), SimInv B st →
      (runLoop pol n st).gantt_chart.length + remNatSum (runLoop pol n st) =
        st.gantt_chart.length + remNatSum st := by
  intro n
  induction n with
  | zero =>
    intro st _
    rfl
  | succ k ih =>
    intro st hinv
    unfold runLoop
    cases hc : loopCond st
    · rw [if_neg (by simp [hc])]
    · rw [if_pos rfl]
      rw [ih (tick pol st) (tick_inv pol B st hinv)]
      exact (tick_progress pol B st hinv hc).2

theorem initState_measure (pol : Policy) (tq : Int) (procs : List Process) :
    loopMeasure (initState pol tq procs) < simFuel procs := by
  have hpend : (initState pol tq procs).pending = sortByKey arrivalPidLe procs := by
    simp [initState, add_explanation]
  have hrn : (initState pol tq procs).running_process = none := by
    simp [initState, add_explanation]
  have hrq : (initState pol tq procs).ready_queue = [] := by
    simp [initState, add_explanation]
  have hperm := sortByKey_perm arrivalPidLe procs
  have hsum : ((sortByKey arrivalPidLe procs).map
      (fun r => r.remaining_time.toNat)).sum =
      (procs.map (fun r => r.remaining_time.toNat)).sum :=
    (hperm.map _).sum_eq
  have hlen : (sortByKey arrivalPidLe procs).length = procs.length :=
    hperm.length_eq
  have hrem : remNatSum (initState pol tq procs) =
      (procs.map (fun r => r.remaining_time.toNat)).sum := by
    rw [remNatSum_eq (initState pol tq procs) (sortByKey arrivalPidLe procs) [] []
      hpend hrq (by rw [hrn]; rfl)]
    simp [hsum]
  have hflag : (if waitFlag (initState pol tq procs) then 1 else 0) ≤ 1 := by
    split <;> omega
  unfold loopMeasure simFuel
  rw [hrem, hpend, hlen]
  omega

theorem loopCond_false_iff (st : SimState) : loopCond st = false ↔
    (st.pending = [] ∧ st.running_process = none ∧ st.ready_queue = []) := by
  unfold loopCond
  rcases st.pending with _ | _ <;> rcases st.running_process with _ | _ <;>
    rcases st.ready_queue with _ | _ <;> simp

theorem remSumL_zero (l : List Process) (pid : Int)
    (h : ∀ p ∈ l, p.remaining_time = 0) : remSumL l pid = 0 := by
  unfold remSumL
  apply List.sum_eq_zero
  intro x hx
  obtain ⟨q, hq, rfl⟩ := List.mem_map.mp hx
  exact h q (List.mem_filter.mp hq).1

theorem burstSum_of_nodup (procs : List Process)
    (hnd : (procs.map Process.pid).Nodup) :
    ∀ p ∈ procs, burstSum procs p.pid = p.burst_time := by
  induction procs with
  | nil =>
    intro p hp
    cases hp
  | cons a as ih =>
    intro p hp
    simp only [List.map_cons, List.nodup_cons] at hnd
    obtain ⟨hna, hnd2⟩ := hnd
    rcases List.mem_cons.mp hp with rfl | hp
    · have hfil : as.filter (fun q => q.pid == p.pid) = [] := by
        rw [List.filter_eq_nil_iff]
        intro q hq hbe
        apply hna
        have : q.pid = p.pid := by simpa using hbe
        rw [← this]
        exact List.mem_map_of_mem Process.pid hq
      simp [burstSum, List.filter_cons, hfil]
    · have hne : (a.pid == p.pid) = false := by
        rw [beq_eq_false_iff_ne]
        intro he
        apply hna
        rw [he]
        exact List.mem_map_of_mem Process.pid hp
      have hih := ih hnd2 p hp
      simp only [burstSum, List.filter_cons] at hih ⊢
      rw [hne] at *
      simpa using hih

/-!  Claim C8. -/

/-- C8: for well-formed input, every policy's `run_simulation` loop
terminates: within `simFuel` iterations the guard goes false, the guard is
false exactly when no unarrived, no ready and no running process remains
(so the final state satisfies all three), and the number of executed ticks -
one Gantt entry each - is exactly the sum of the burst times, hence in
particular finite. -/
theorem C8_termination (pol : Policy) (tq : Int) (procs : List Process)
    (hwf : WFInput procs) :
    loopCond (runLoop pol (simFuel procs) (initState pol tq procs)) = false ∧
    (∀ st : SimState, loopCond st = false ↔
      (st.pending = [] ∧ st.running_process = none ∧ st.ready_queue = [])) ∧
    (runSimulation pol tq procs).pending = [] ∧
    (runSimulation pol tq procs).running_process = none ∧
    (runSimulation pol tq procs).ready_queue = [] ∧
    (runSimulation pol tq procs).gantt_chart.length =
      (procs.map (fun p => p.burst_time.toNat)).sum := by
  have hinv0 := initState_inv pol tq procs hwf
  have hhalt := runLoop_halts pol (burstSum procs) (simFuel procs)
    (initState pol tq procs) hinv0 (initState_measure pol tq procs)
  obtain ⟨hp, hr, hq⟩ := (loopCond_false_iff _).mp hhalt
  refine ⟨hhalt, fun st => loopCond_false_iff st, ?_, ?_, ?_, ?_⟩
  · simp only [runSimulation, finalExplanation_pending]
    exact hp
  · simp only [runSimulation, finalExplanation_running]
    exact hr
  · simp only [runSimulation, finalExplanation_ready]
    exact hq
  · have hcount := runLoop_count pol (burstSum procs) (simFuel procs)
      (initState pol tq procs) hinv0
    have hremF : remNatSum (runLoop pol (simFuel procs)
        (initState pol tq procs)) = 0 := by
      rw [remNatSum_eq _ [] [] [] hp hq (by rw [hr]; rfl)]
      simp
    have hg0 : (initState pol tq procs).gantt_chart = [] := by
      simp [initState, add_explanation]
    have hglen0 : (initState pol tq procs).gantt_chart.length = 0 := by
      rw [hg0]
      rfl
    have hrem0 : remNatSum (initState pol tq procs) =
        (procs.map (fun r => r.remaining_time.toNat)).sum := by
      rw [remNatSum_eq (initState pol tq procs) (sortByKey arrivalPidLe procs)
        [] [] (by simp [initState, add_explanation])
        (by simp [initState, add_explanation])
        (by simp [initState, add_explanation])]
      simp [((sortByKey_perm arrivalPidLe procs).map _).sum_eq]
    have hburst : (procs.map (fun r => r.remaining_time.toNat)).sum =
        (procs.map (fun p => p.burst_time.toNat)).sum := by
      apply congrArg List.sum
      apply List.map_congr_left
      intro q hq2
      rw [(hwf q hq2).2.2.1]
    simp only [runSimulation, finalExplanation_gantt]
    omega

/-- Closed instance of the C8 claim theorem at FCFS on P1 (arrival 0,
burst 2). -/
theorem C8_termination_witness :
    loopCond (runLoop Policy.fcfs (simFuel [mkProcess 1 0 2 0])
      (initState Policy.fcfs 4 [mkProcess 1 0 2 0])) = false ∧
    (∀ st : SimState, loopCond st = false ↔
      (st.pending = [] ∧ st.running_process = none ∧ st.ready_queue = [])) ∧
    (runSimulation Policy.fcfs 4 [mkProcess 1 0 2 0]).pending = [] ∧
    (runSimulation Policy.fcfs 4 [mkProcess 1 0 2 0]).running_process = none ∧
    (runSimulation Policy.fcfs 4 [mkProcess 1 0 2 0]).ready_queue = [] ∧
    (runSimulation Policy.fcfs 4 [mkProcess 1 0 2 0]).gantt_chart.length =
      ([mkProcess 1 0 2 0].map (fun p => p.burst_time.toNat)).sum :=
  C8_termination Policy.fcfs 4 [mkProcess 1 0 2 0] (by unfold WFInput; decide)

/-!  Claim C6. -/

/-- C6: for well-formed input with distinct pids, under each of the four
policies, the total duration booked in the Gantt log to each input
process's pid equals that process's original burst time when the run
ends. -/
theorem C6_gantt_durations (pol : Policy) (tq : Int) (procs : List Process)
    (hwf : WFInput procs) (hnd : (procs.map Process.pid).Nodup) :
    ∀ p ∈ procs,
      ganttSumL (runSimulation pol tq procs).gantt_chart p.pid = p.burst_time := by
  intro p hp
  have hinv0 := initState_inv pol tq procs hwf
  have hinv := runLoop_inv pol (burstSum procs) (simFuel procs)
    (initState pol tq procs) hinv0
  have hhalt := runLoop_halts pol (burstSum procs) (simFuel procs)
    (initState pol tq procs) hinv0 (initState_measure pol tq procs)
  obtain ⟨hpend, hrun, hready⟩ := (loopCond_false_iff _).mp hhalt
  have hall : allList (runLoop pol (simFuel procs) (initState pol tq procs)) =
      (runLoop pol (simFuel procs) (initState pol tq procs)).completed_processes := by
    simp [allList, activeList, hpend, hrun, hready]
  have hzero : remSumL (allList (runLoop pol (simFuel procs)
      (initState pol tq procs))) p.pid = 0 := by
    rw [hall]
    apply remSumL_zero
    intro q hq
    exact (hinv.completed_fields q hq).2.2.1
  have hsums := hinv.sums p.pid
  rw [hzero] at hsums
  have hbs := burstSum_of_nodup procs hnd p hp
  simp only [runSimulation, finalExplanation_gantt]
  unfold ganttSum at hsums
  omega

/-- Closed instance of the C6 claim theorem at FCFS on P1 (arrival 0,
burst 2) and P2 (arrival 1, burst 3). -/
theorem C6_gantt_durations_witness :
    ganttSumL (runSimulation Policy.fcfs 4
      [mkProcess 1 0 2 0, mkProcess 2 1 3 0]).gantt_chart
        (mkProcess 1 0 2 0).pid = (mkProcess 1 0 2 0).burst_time ∧
    ganttSumL (runSimulation Policy.fcfs 4
      [mkProcess 1 0 2 0, mkProcess 2 1 3 0]).gantt_chart
        (mkProcess 2 1 3 0).pid = (mkProcess 2 1 3 0).burst_time :=
  ⟨C6_gantt_durations Policy.fcfs 4 [mkProcess 1 0 2 0, mkProcess 2 1 3 0]
      (by unfold WFInput; decide) (by decide) (mkProcess 1 0 2 0) (by decide),
   C6_gantt_durations Policy.fcfs 4 [mkProcess 1 0 2 0, mkProcess 2 1 3 0]
      (by unfold WFInput; decide) (by decide) (mkProcess 2 1 3 0) (by decide)⟩

/-!  Claim C9. -/

/-- C9: the `/run` route hands the scheduler a deep copy of the request's
process list and answers from the scheduler's state, so the caller's list is
returned unchanged - while `run_simulation` itself does mutate the list it
is given (the in-place sort reorders it and its process objects are
updated), witnessed on FCFS with two out-of-order processes. -/
theorem C9_route_frame (pol : Policy) (tq : Int) (caller : List Process) :
    (routeRunSimulation pol tq caller).2 = caller ∧
    (routeRunSimulation pol tq caller).1 =
      runSimulation pol tq (caller.map deepcopyProcess) ∧
    (runSimulationMutated Policy.fcfs 4
        [mkProcess 2 0 3 0, mkProcess 1 1 4 0]).2 ≠
      [mkProcess 2 0 3 0, mkProcess 1 1 4 0] := by
  exact ⟨rfl, rfl, by decide⟩
